import Mathlib

/-!
Verification development for the schema-compiler core of this repository:
the combinator resolver (allOf merge, anyOf/oneOf union synthesis), the
schema IR builder, the union-element deduplicator and the reference
reachability pruner.  Go code is embedded shallowly: Go structs become Lean
structures, Go maps become insertion-ordered association lists with
last-writer-wins update, Go pointers whose identity matters become
`Option` of a record carrying an allocation id, fallible functions return
`Except`.  The mutually recursive resolver cluster is embedded with an
explicit fuel argument that decreases on every cross-call; `fuel 0`
returns a dedicated `outOfFuel` error that no theorem ever relies on.
Nil entries inside combinator lists and nil-resolving schema proxies
(possible in Go only for malformed, unparseable documents) are outside the
model: every proxy carries its resolved schema.
-/

namespace OapiCodegen

/-- Error taxonomy of the resolver, mirroring the sentinel error values of
the Go code (`ErrMergingSchemasWithDifferentFormats`,
`ErrAmbiguousDiscriminatorMapping`, `ErrDiscriminatorNotAllMapped`, ...).
Go wraps propagated errors with message context (`fmt.Errorf("...: %w")`);
wrapping preserves the underlying sentinel, so propagation is modelled as
identity. -/
inductive GenErr : Type where
  | outOfFuel : GenErr
  | incompatibleTypes (t1 t2 : List String) : GenErr
  | transitiveMergingAllOfSchema1 : GenErr
  | transitiveMergingAllOfSchema2 : GenErr
  | differentFormats : GenErr
  | differentDefaults : GenErr
  | differentUniqueItems : GenErr
  | differentExclusiveMin : GenErr
  | differentExclusiveMax : GenErr
  | differentReadOnly : GenErr
  | differentWriteOnly : GenErr
  | mergeAdditionalProperties : GenErr
  | ambiguousDiscriminatorMapping : GenErr
  | discriminatorNotAllMapped : GenErr
  | badReference : GenErr
  deriving Repr, DecidableEq

/-- A Go `*bool` whose identity matters: the merge code compares
`s1.UniqueItems != s2.UniqueItems` on raw pointers.  Distinct allocations
always have distinct `id`s, so Go pointer equality is structural equality
of `Option BoolPtr` (both `none`, or the same allocation hence the same
`id` and the same pointed value). -/
structure BoolPtr : Type where
  id : Nat
  val : Bool
  deriving Repr, DecidableEq

/-- A Go `*base.DynamicValue[bool, float64]` (exclusiveMinimum/Maximum)
compared by pointer identity in the merge code.  `isB` selects between the
boolean (3.0 style) and numeric (3.1 style) payload; numeric payloads are
modelled over `Int` since no embedded claim computes with the values. -/
structure DynPtr : Type where
  id : Nat
  isB : Bool
  bval : Bool
  nval : Int
  deriving Repr, DecidableEq

/-- Modelled from the spec: the constraint set attached to an IR node (the
current `Constraints` struct with pointer-valued fields is not under src/;
only the older value-field revision is).  Field inventory follows the
uses in src (`Constraints.Nullable != nil && *...`, `MinItems != nil`,
`MinProperties`, `ValidationTags`). -/
structure Constraints : Type where
  required : Option Bool := none
  nullable : Option Bool := none
  readOnly : Option Bool := none
  writeOnly : Option Bool := none
  minLength : Option Int := none
  maxLength : Option Int := none
  minimum : Option Int := none
  maximum : Option Int := none
  minItems : Option Int := none
  maxItems : Option Int := none
  minProperties : Option Int := none
  maxProperties : Option Int := none
  patternConstraint : Option String := none
  validationTags : List String := []
  deriving Repr, DecidableEq

/-- Modelled from the spec: `Constraints.Count` (not under src/) counts the
active validation-constraint fields — "length/bounds/pattern/etc". -/
def Constraints.count (c : Constraints) : Nat :=
  [c.minLength.isSome, c.maxLength.isSome, c.minimum.isSome, c.maximum.isSome,
   c.minItems.isSome, c.maxItems.isSome, c.minProperties.isSome,
   c.maxProperties.isSome, c.patternConstraint.isSome].count true

/-- The discriminator declaration attached to a source schema
(`base.Discriminator`): the property name and the explicit value-to-ref
mapping, iterated oldest-first. -/
structure DiscIn : Type where
  propertyName : String
  mapping : List (String × String) := []
  deriving Repr, DecidableEq

/-- The discriminator of a resolved union (`codegen.Discriminator`): the
property name plus the value-to-Go-type mapping.  The Go field is a
`map[string]string`; it is modelled as an insertion-ordered association
list with last-writer-wins update, which has the same key-value extension. -/
structure DiscOut : Type where
  property : String
  mapping : List (String × String) := []
  deriving Repr, DecidableEq

/-- The source schema node (`base.Schema`), parametric in the proxy type to
tie the recursive knot.  `typ`/`properties` distinguish absent (`none`)
from present-but-empty, because `getSchemaType` branches on nil-ness.
`defaultVal` keeps only the allocation identity of the `*yaml.Node`
(the merge code checks nil-ness only).  Extension values are modelled as
scalar strings. -/
structure SchemaF (π : Type) : Type where
  typ : Option (List String) := none
  format : String := ""
  enum : List String := []
  required : List String := []
  properties : Option (List (String × π)) := none
  items : Option π := none
  additionalProps : Option (π ⊕ Bool) := none
  allOf : List π := []
  anyOf : List π := []
  oneOf : List π := []
  notSchema : Option π := none
  defaultVal : Option Nat := none
  uniqueItems : Option BoolPtr := none
  exclusiveMinimum : Option DynPtr := none
  exclusiveMaximum : Option DynPtr := none
  nullable : Option Bool := none
  readOnly : Option Bool := none
  writeOnly : Option Bool := none
  discriminator : Option DiscIn := none
  extensions : List (String × String) := []
  description : String := ""

/-- A `*base.SchemaProxy` together with the schema it resolves to.
`ref` is `GetReference()` (empty for inline schemas). -/
inductive SchemaProxy : Type where
  | mk (ref : String) (schema : SchemaF SchemaProxy) : SchemaProxy

/-- The resolved schema node type. -/
def Schema : Type := SchemaF SchemaProxy

def SchemaProxy.ref : SchemaProxy → String
  | .mk r _ => r

def SchemaProxy.schema : SchemaProxy → Schema
  | .mk _ s => s

/-- The declared-type list with Go's nil slice read as empty
(`len(schema.Type)`). -/
def Schema.typeList (s : Schema) : List String :=
  s.typ.getD []

/-- `getSchemaType`: the declared type if the `Type` field is non-nil,
otherwise `object` is inferred from a non-nil properties map and `array`
from a non-nil items schema. -/
def getSchemaType (s : Option Schema) : List String :=
  match s with
  | none => []
  | some s =>
    match s.typ with
    | some t => t
    | none =>
      if s.properties.isSome then ["object"]
      else if s.items.isSome then ["array"]
      else []

/-- `mergeNullable`: permissive union of two `*bool` nullable flags; `nil`
unless either side is explicitly true. -/
def mergeNullable (a b : Option Bool) : Option Bool :=
  if a.getD false || b.getD false then some true else none

/-- `ptrEqual` (not under src/): the standard nil-aware pointed-value
comparison used for the ReadOnly/WriteOnly merge checks, modelled as
equality of `Option Bool`. -/
def ptrEqual (a b : Option Bool) : Bool :=
  a == b

/-- `isAdditionalPropertiesExplicitFalse`, translated literally: `false`
for a nil field, otherwise the negation of `IsB()` — so a schema-valued
additionalProperties yields `true` and a boolean-valued one yields
`false`, exactly as in the source. -/
def isAdditionalPropertiesExplicitFalse (s : Schema) : Bool :=
  match s.additionalProps with
  | none => false
  | some (.inl _) => true
  | some (.inr _) => false

/-- `isMetadataOnlySchema`: no type, no (non-empty) properties, no items,
no additionalProperties, no combinators, no `not`. -/
def isMetadataOnlySchema (s : Schema) : Bool :=
  if (s.typeList).length > 0 then false
  else if (s.properties.getD []).length > 0 then false
  else if s.items.isSome then false
  else if s.additionalProps.isSome then false
  else if ¬ s.allOf.isEmpty || ¬ s.anyOf.isEmpty || ¬ s.oneOf.isEmpty then false
  else if s.notSchema.isSome then false
  else true

/-- The list worker of `containsUnion`: does any proxy in the list resolve
to a schema that carries anyOf/oneOf members, directly or through a
transitive allOf member. -/
def containsUnionL : List SchemaProxy → Bool
  | [] => false
  | .mk _ s :: rest =>
    ¬ s.anyOf.isEmpty || ¬ s.oneOf.isEmpty || containsUnionL s.allOf || containsUnionL rest
termination_by l => sizeOf l
decreasing_by
  all_goals cases s
  all_goals simp
  all_goals omega

/-- `containsUnion`: does the schema or any transitive allOf member carry
anyOf/oneOf members. -/
def containsUnionS (s : Schema) : Bool :=
  ¬ s.anyOf.isEmpty || ¬ s.oneOf.isEmpty || containsUnionL s.allOf

/-- Last-writer-wins update of an insertion-ordered association list,
the model of `m[k] = v` on a Go map. -/
def mapSet (m : List (String × String)) (k v : String) : List (String × String) :=
  if m.any (fun kv => kv.1 == k) then
    m.map (fun kv => if kv.1 == k then (k, v) else kv)
  else
    m ++ [(k, v)]

/-- Association-list lookup, the model of a Go map read. -/
def mapGet (m : List (String × String)) (k : String) : Option String :=
  (m.find? (fun kv => kv.1 == k)).map Prod.snd

/-- One step of `mergeOpenapiSchemas` merging the non-structural scalar
checks is kept inline below; this helper merges two optional property
maps by key with last-writer-wins, producing `none` when no entry exists
(Go only allocates `result.Properties` when a key is set). -/
def mergeProperties (p1 p2 : Option (List (String × SchemaProxy))) :
    Option (List (String × SchemaProxy)) :=
  let entries := p1.getD [] ++ p2.getD []
  if entries.isEmpty then none
  else
    some (entries.foldl
      (fun acc kv =>
        if acc.any (fun e => e.1 == kv.1) then
          acc.map (fun e => if e.1 == kv.1 then kv else e)
        else acc ++ [kv])
      [])

/-- The additionalProperties merge clause of `mergeOpenapiSchemas`,
translated branch by branch. -/
def mergeAdditionalProps (s1 s2 : Schema) :
    Except GenErr (Option (SchemaProxy ⊕ Bool)) :=
  if isAdditionalPropertiesExplicitFalse s1 || isAdditionalPropertiesExplicitFalse s2 then
    .ok (some (.inr false))
  else
    match s1.additionalProps with
    | some (.inl a1) =>
      match s2.additionalProps with
      | some (.inl _) => .error .mergeAdditionalProperties
      | _ => .ok (some (.inl a1))
    | _ =>
      match s2.additionalProps with
      | some (.inl a2) => .ok (some (.inl a2))
      | _ => .ok none

/-- The scalar-check tail of `mergeOpenapiSchemas`: everything after the
transitive allOf flattening of both sides, operating on the (possibly
replaced) schemas `s1`/`s2` with the type `t1`, extensions and oneOf list
already computed from the original arguments. -/
def mergeTail (t1 : List String) (resultExt : List (String × String))
    (resultOneOf : List SchemaProxy) (s1 s2 : Schema) : Except GenErr (Option Schema) :=
  let resultAllOf := s1.allOf ++ s2.allOf
  if s1.format ≠ s2.format then .error .differentFormats
  else
    let resultEnum := s1.enum ++ s2.enum
    if s1.defaultVal.isSome || s2.defaultVal.isSome then .error .differentDefaults
    else if s1.uniqueItems ≠ s2.uniqueItems then .error .differentUniqueItems
    else if s1.exclusiveMinimum ≠ s2.exclusiveMinimum then .error .differentExclusiveMin
    else if s1.exclusiveMaximum ≠ s2.exclusiveMaximum then .error .differentExclusiveMax
    else
      let resultNullable := mergeNullable s1.nullable s2.nullable
      if ¬ ptrEqual s1.readOnly s2.readOnly then .error .differentReadOnly
      else if ¬ ptrEqual s1.writeOnly s2.writeOnly then .error .differentWriteOnly
      else do
        let resultAP ← mergeAdditionalProps s1 s2
        .ok (some
          { typ := some t1
            format := s1.format
            enum := resultEnum
            required := s1.required ++ s2.required
            properties := mergeProperties s1.properties s2.properties
            additionalProps := resultAP
            allOf := resultAllOf
            oneOf := resultOneOf
            nullable := resultNullable
            readOnly := s1.readOnly
            writeOnly := s1.writeOnly
            uniqueItems := s1.uniqueItems
            exclusiveMinimum := s1.exclusiveMinimum
            exclusiveMaximum := s1.exclusiveMaximum
            extensions := resultExt })

mutual

/-- `mergeOpenapiSchemas`, the pairwise allOf structural merge.  The fuel
argument bounds the transitive-allOf recursion (`mergeAllOf` on each
side); it is consumed only when a non-empty allOf list is flattened, so
all fuel instantiations agree on inputs with empty allOf lists. -/
def mergeOpenapiSchemasF : Nat → Option Schema → Option Schema → Except GenErr (Option Schema)
  | _, none, os2 => .ok os2
  | fuel, some s1, os2 =>
    let t1 := getSchemaType (some s1)
    let t2 := getSchemaType os2
    if t2.isEmpty then .ok (some s1)
    else if t1.isEmpty then .ok os2
    else if t1 ≠ t2 then .error (.incompatibleTypes t1 t2)
    else
      match os2 with
      | none => .ok (some s1)
      | some s2 => do
        let resultExt := if ¬ s2.extensions.isEmpty then s2.extensions else []
        let resultOneOf := s1.oneOf ++ s2.oneOf
        let s1 ←
          if ¬ s1.allOf.isEmpty then
            match fuel with
            | 0 => .error .outOfFuel
            | fuel + 1 =>
              match mergeAllOfF fuel s1.allOf with
              | .ok m => .ok (m.getD {})
              | .error _ => .error .transitiveMergingAllOfSchema1
          else .ok s1
        let s2 ←
          if ¬ s2.allOf.isEmpty then
            match fuel with
            | 0 => .error .outOfFuel
            | fuel + 1 =>
              match mergeAllOfF fuel s2.allOf with
              | .ok m => .ok (m.getD {})
              | .error _ => .error .transitiveMergingAllOfSchema2
          else .ok s2
        mergeTail t1 resultExt resultOneOf s1 s2

/-- `mergeAllOf`: left fold of `mergeOpenapiSchemas` over the allOf
members, starting from a nil schema.  Fuel is consumed per member so the
cluster is structurally recursive. -/
def mergeAllOfF : Nat → List SchemaProxy → Except GenErr (Option Schema)
  | _, [] => .ok none
  | 0, _ :: _ => .error .outOfFuel
  | fuel + 1, p :: rest => do
    let first ← mergeOpenapiSchemasF fuel none (some p.schema)
    mergeAllOfGoF fuel first rest

/-- The tail of the `mergeAllOf` fold with an explicit accumulator. -/
def mergeAllOfGoF : Nat → Option Schema → List SchemaProxy → Except GenErr (Option Schema)
  | _, acc, [] => .ok acc
  | 0, _, _ :: _ => .error .outOfFuel
  | fuel + 1, acc, p :: rest => do
    let acc ← mergeOpenapiSchemasF fuel acc (some p.schema)
    mergeAllOfGoF fuel acc rest

end

/-- The continuation of `mergeOpenapiSchemas` past the type checks: the
transitive allOf flattening of both sides followed by `mergeTail`.
Definitionally equal to the corresponding segment of
`mergeOpenapiSchemasF` (see its unfolding lemma below). -/
def mergeContinue (fuel : Nat) (s1 s2 : Schema) : Except GenErr (Option Schema) := do
  let resultExt := if ¬ s2.extensions.isEmpty then s2.extensions else []
  let resultOneOf := s1.oneOf ++ s2.oneOf
  let s1' ←
    if ¬ s1.allOf.isEmpty then
      match fuel with
      | 0 => .error .outOfFuel
      | fuel + 1 =>
        match mergeAllOfF fuel s1.allOf with
        | .ok m => .ok (m.getD {})
        | .error _ => .error GenErr.transitiveMergingAllOfSchema1
    else .ok s1
  let s2' ←
    if ¬ s2.allOf.isEmpty then
      match fuel with
      | 0 => .error .outOfFuel
      | fuel + 1 =>
        match mergeAllOfF fuel s2.allOf with
        | .ok m => .ok (m.getD {})
        | .error _ => .error GenErr.transitiveMergingAllOfSchema2
    else .ok s2
  mergeTail (getSchemaType (some s1)) resultExt resultOneOf s1' s2'

/-- Uppercase the first character of a string (`UppercaseFirstCharacter`). -/
def upFirst (s : String) : String :=
  match s.data with
  | [] => ""
  | c :: cs => String.mk (c.toUpper :: cs)

/-- Modelled from the spec: `SchemaNameToTypeName` (not under src/) maps a
schema name deterministically to a Go type name; identifier sanitization
details are below the granularity of the claims, so only the exported-name
capitalization is kept. -/
def schemaNameToTypeName (s : String) : String :=
  upFirst s

/-- Character-level split on a separator, mirroring `strings.Split` for a
one-character separator (kept structural so concrete references evaluate). -/
def splitCharList (c : Char) : List Char → List (List Char)
  | [] => [[]]
  | x :: xs =>
    match splitCharList c xs with
    | [] => [[x]]
    | h :: t => if x = c then [] :: h :: t else (x :: h) :: t

/-- `strings.Split(ref, "/")`. -/
def splitSlash (s : String) : List String :=
  (splitCharList '/' s.data).map String.mk

/-- `strings.HasPrefix`, via the structural list-prefix test. -/
def strStarts (s p : String) : Bool :=
  p.data.isPrefixOf s.data

/-- The last segment of a slash-separated reference path. -/
def lastRefSegment (ref : String) : String :=
  ((splitSlash ref).getLast?).getD ""

/-- Modelled from the spec: `refPathToGoType` (not under src/) turns a
reference path into the referenced Go type name; it fails on an empty
reference. -/
def refPathToGoType (ref : String) : Except GenErr String :=
  if ref = "" then .error .badReference
  else .ok (schemaNameToTypeName (lastRefSegment ref))

/-- Modelled from the spec: `refPathToObjName` (not under src/) — the
reference's own name, i.e. its last path segment. -/
def refPathToObjName (ref : String) : String :=
  lastRefSegment ref

/-- Modelled from the spec: `pathToTypeName` (not under src/) — the
deterministic path-derived name for hoisted anonymous types
(parent name + field/index segments). -/
def pathToTypeName (path : List String) : String :=
  String.intercalate "_" (path.map schemaNameToTypeName)

/-- Modelled from the spec: `isStandardComponentReference` (not under
src/) — a standard component reference has exactly the shape
`#/components/<kind>/<name>`, as opposed to an arbitrary JSON-pointer
path into the document. -/
def isStandardComponentReference (ref : String) : Bool :=
  strStarts ref ("#/components/") && (splitSlash ref).length == 4

/-- The Go primitive type names recognized by the union generator (the
`goPrimitiveTypes` set in src). -/
def goPrimitiveTypes : List String :=
  ["string", "int", "int8", "int16", "int32", "int64",
   "uint", "uint8", "uint16", "uint32", "uint64",
   "float", "float32", "float64", "bool"]

/-- `isPrimitiveType`: membership in the Go primitive type set. -/
def isPrimitiveType (t : String) : Bool :=
  goPrimitiveTypes.contains t

/-- The contextual options threaded through resolution (`ParseOptions`):
the active reference, the declaration path, and the description-omission
flag read by field rendering.  The mutable type tracker is not modelled:
registering a definition mutates an external registry only and never
changes the returned IR. -/
structure ParseOptions : Type where
  reference : String := ""
  path : List String := []
  omitDescriptionFlag : Bool := false
  deriving Repr, DecidableEq

def ParseOptions.withReference (o : ParseOptions) (r : String) : ParseOptions :=
  { o with reference := r }

def ParseOptions.withPath (o : ParseOptions) (p : List String) : ParseOptions :=
  { o with path := p }

def extPropGoType : String := "x-go-type"

def extPropGoTypeSkipOptionalPointer : String := "x-go-type-skip-optional-pointer"

def extPropOmitEmpty : String := "x-omitempty"

def extPropGoJsonIgnore : String := "x-go-json-ignore"

def extPropExtraTags : String := "x-oapi-codegen-extra-tags"

def extSensitiveData : String := "x-sensitive-data"

def extGoName : String := "x-go-name"

def extDeprecationReason : String := "x-deprecated-reason"

/-- Modelled from the spec: `parseString` (not under src/) reads a scalar
string from an extension value; extension values are already modelled as
scalar strings. -/
def parseString (v : String) : Except GenErr String :=
  .ok v

/-- Modelled from the spec: `parseBooleanValue` (not under src/) reads a
boolean extension value. -/
def parseBooleanValue (v : String) : Except GenErr Bool :=
  .ok (v == "true")

/-- A property of a record IR (`Property`), parametric in the IR type. -/
structure PropertyF (σ : Type) : Type where
  goName : String := ""
  description : String := ""
  jsonFieldName : String := ""
  schema : σ
  extensions : List (String × String) := []
  deprecated : Bool := false
  constraints : Constraints := {}
  sensitiveData : Option String := none

/-- A registered type definition (`TypeDefinition`), parametric in the IR
type. -/
structure TypeDefinitionF (σ : Type) : Type where
  name : String := ""
  jsonName : String := ""
  schema : σ
  specLocation : String := ""
  needsMarshalerFlag : Bool := false
  hasSensitiveDataFlag : Bool := false

/-- A resolved union element (`UnionElement` of the current revision):
the Go type name plus the full IR, kept to compare constraint strictness
during deduplication. -/
structure UnionElementF (σ : Type) : Type where
  typeName : String
  schema : σ

/-- The IR node (`GoSchema`), parametric in itself to tie the knot. -/
structure GoSchemaF (σ : Type) : Type where
  goType : String := ""
  refType : String := ""
  arrayType : Option σ := none
  enumValues : List (String × String) := []
  properties : List (PropertyF σ) := []
  hasAdditionalProperties : Bool := false
  additionalPropertiesType : Option σ := none
  additionalTypes : List (TypeDefinitionF σ) := []
  skipOptionalPointer : Bool := false
  description : String := ""
  constraints : Constraints := {}
  unionElements : List (UnionElementF σ) := []
  discriminator : Option DiscOut := none
  defineViaAlias : Bool := false
  openAPISchema : Option Schema := none

/-- The canonical IR node type. -/
inductive GoSchema : Type where
  | mk (f : GoSchemaF GoSchema) : GoSchema

/-- The field record of an IR node. -/
def GoSchema.f : GoSchema → GoSchemaF GoSchema
  | .mk f => f

/-- A property whose IR is a `GoSchema`. -/
abbrev Property : Type := PropertyF GoSchema

/-- A type definition whose IR is a `GoSchema`. -/
abbrev TypeDefinition : Type := TypeDefinitionF GoSchema

/-- A union element whose IR is a `GoSchema`. -/
abbrev UnionElement : Type := UnionElementF GoSchema

/-- `GoSchema.TypeDecl`: the reference name when present, else the Go
type declaration. -/
def GoSchema.typeDecl (g : GoSchema) : String :=
  if g.f.refType ≠ "" then g.f.refType else g.f.goType

/-- `GoSchema.IsZero`: an IR with an empty type declaration. -/
def GoSchema.isZero (g : GoSchema) : Bool :=
  g.typeDecl == ""

/-- `GoSchema.IsExternalRef`: a reference type containing a dot. -/
def GoSchema.isExternalRef (g : GoSchema) : Bool :=
  g.f.refType ≠ "" && g.f.refType.contains (Char.ofNat 46)

/-- `hasSensitiveData`: some property carries a sensitive-data marker. -/
def hasSensitiveData (g : GoSchema) : Bool :=
  g.f.properties.any (fun p => p.sensitiveData.isSome)

/-- `needsMarshaler`: sensitive data forces a custom marshaler; otherwise
a property without a JSON name does, except for union types which get
their marshaler separately. -/
def needsMarshaler (g : GoSchema) : Bool :=
  if hasSensitiveData g then true
  else
    let res := g.f.properties.any (fun p => p.jsonFieldName == "")
    if ¬ res then false
    else g.f.unionElements.isEmpty

/-- `schemaHasAdditionalProperties` on a source schema. -/
def schemaHasAdditionalProperties (s : Option Schema) : Bool :=
  match s with
  | none => false
  | some s =>
    match s.additionalProps with
    | none => false
    | some (.inl _) => true
    | some (.inr b) => b

/-- `Property.IsPointerType`: arrays, maps and additional-property objects
are never pointers; otherwise a nullable property without the
skip-optional-pointer override is. -/
def PropertyF.isPointerType (p : Property) : Bool :=
  let typeDef := p.schema.typeDecl
  if (match p.schema.f.openAPISchema with
      | some s => s.typeList.contains "array"
      | none => false) then false
  else if (match p.schema.f.openAPISchema with
      | some s => s.typeList.contains "object" && schemaHasAdditionalProperties (some s)
      | none => false) then false
  else if strStarts typeDef ("map[") || strStarts typeDef ("[]") then false
  else ¬ p.schema.f.skipOptionalPointer && p.constraints.nullable.getD false

/-- `Property.GoTypeDef`: the rendered field type, with a single leading
star for pointer-typed fields (`"*" + strings.TrimPrefix(typeDef, "*")`). -/
def PropertyF.goTypeDef (p : Property) : String :=
  let typeDef := p.schema.typeDecl
  if p.isPointerType then
    "*" ++ (if strStarts typeDef ("*") then typeDef.drop 1 else typeDef)
  else typeDef

/-- Modelled from the spec: `stringWithTypeNameToGoComment` (not under
src/) renders a description as a Go doc comment for the named field. -/
def stringWithTypeNameToGoComment (desc name : String) : String :=
  "// " ++ name ++ " " ++ desc

/-- Modelled from the spec: `deprecationComment` (not under src/). -/
def deprecationComment (reason : String) : String :=
  if reason = "" then "// Deprecated:" else "// Deprecated: " ++ reason

/-- Insertion of a string into a sorted list, for `sortedMapKeys`. -/
def insertSorted (x : String) : List String → List String
  | [] => [x]
  | y :: ys => if x < y then x :: y :: ys else y :: insertSorted x ys

/-- Modelled from the spec: `sortedMapKeys` (not under src/) returns the
map keys in sorted order for deterministic tag rendering. -/
def sortStrings (l : List String) : List String :=
  l.foldr insertSorted []

/-- `genFieldsFromProperties`, rendering one Go struct field per property:
optional doc comment, optional deprecation line, `name type` and the
backtick tag block assembled from a sorted tag map. -/
def genFieldsFromProperties (props : List Property) (options : ParseOptions) : List String :=
  (props.enum.map (fun (pi : Nat × Property) =>
    let p := pi.2
    let i := pi.1
    let commentPart :=
      if ¬ options.omitDescriptionFlag && p.description ≠ "" then
        (if i ≠ 0 then "\n" else "") ++ stringWithTypeNameToGoComment p.description p.goName ++ "\n"
      else ""
    let deprecatedPart :=
      if p.deprecated then
        let reason := ((mapGet p.extensions extDeprecationReason).map id).getD ""
        deprecationComment reason ++ "\n"
      else ""
    let p :=
      match mapGet p.extensions extPropGoTypeSkipOptionalPointer with
      | some v =>
        { p with schema := GoSchema.mk { p.schema.f with skipOptionalPointer := v == "true" } }
      | none => p
    let declPart := "    " ++ p.goName ++ " " ++ p.goTypeDef
    let omitEmpty0 := p.constraints.nullable.getD false
    let omitEmpty1 := if p.schema.f.skipOptionalPointer then false else omitEmpty0
    let omitEmpty :=
      match mapGet p.extensions extPropOmitEmpty with
      | some v => v == "true"
      | none => omitEmpty1
    let fieldTags : List (String × String) :=
      if p.constraints.validationTags.length > 0 then
        [("validate", String.intercalate "," p.constraints.validationTags)]
      else []
    let jsonFieldName := if p.jsonFieldName = "" then "-" else p.jsonFieldName
    let jsonValue :=
      if omitEmpty && jsonFieldName ≠ "-" then jsonFieldName ++ ",omitempty" else jsonFieldName
    let fieldTags := mapSet fieldTags "json" jsonValue
    let fieldTags :=
      match mapGet p.extensions extPropGoJsonIgnore with
      | some v => if v == "true" then mapSet fieldTags "json" "-" else fieldTags
      | none => fieldTags
    let fieldTags :=
      if (mapGet p.extensions extSensitiveData).isSome then
        mapSet fieldTags "sensitive" ""
      else fieldTags
    let keys := sortStrings (fieldTags.map Prod.fst)
    let tags := keys.map (fun k => k ++ ":\"" ++ (mapGet fieldTags k).getD "" ++ "\"")
    commentPart ++ deprecatedPart ++ declPart ++ "`" ++ String.intercalate " " tags ++ "`"))

/-- `additionalPropertiesType`: the Go type of the additional-properties
map values (the reference name when present). -/
def additionalPropertiesType (g : GoSchema) : String :=
  match g.f.additionalPropertiesType with
  | none => ""
  | some t => if t.f.refType ≠ "" then t.f.refType else t.f.goType

/-- `GoSchema.createGoStruct`: assemble the inline struct declaration from
rendered fields, the optional additional-properties map and the union
payload (a typed `runtime.Either` for exactly two elements, a raw message
otherwise). -/
def GoSchema.createGoStruct (g : GoSchema) (fields : List String) : String :=
  let objectParts := ["struct \x7b"] ++ fields
  let objectParts :=
    if g.f.hasAdditionalProperties then
      objectParts ++
        ["AdditionalProperties map[string]" ++ additionalPropertiesType g ++ " `json:\"-\"`"]
    else objectParts
  let objectParts :=
    if g.f.unionElements.length == 2 then
      objectParts ++
        ["runtime.Either[" ++ ((g.f.unionElements.get? 0).map (fun u => u.typeName)).getD "" ++
          ", " ++ ((g.f.unionElements.get? 1).map (fun u => u.typeName)).getD "" ++ "]"]
    else if g.f.unionElements.length > 0 then
      objectParts ++ ["union json.RawMessage"]
    else objectParts
  String.intercalate "\n" (objectParts ++ ["\x7d"])

/-- `extractDiscriminatorFromProperties`: the single enum value of the
discriminator property of a schema, or empty when the property is absent,
has no enum, or an ambiguous (`len != 1`) enum. -/
def extractDiscriminatorFromProperties (s : Schema) (prop : String) : String :=
  match s.properties with
  | none => ""
  | some props =>
    match props.find? (fun kv => kv.1 == prop) with
    | none => ""
    | some kv =>
      let ps := kv.2.schema
      if ps.enum.isEmpty then ""
      else if ps.enum.length ≠ 1 then ""
      else ps.enum.headD ""

mutual

/-- `extractDiscriminatorValue`: the discriminator value of a union
element, from its own properties first, else recursively through its
allOf members.  The fuel bounds the allOf nesting depth; the Go recursion
terminates on the finite parsed tree. -/
def extractDiscriminatorValueF : Nat → SchemaProxy → String → String
  | 0, _, _ => ""
  | fuel + 1, p, prop =>
    let direct := extractDiscriminatorFromProperties p.schema prop
    if direct ≠ "" then direct else extractDVAllOfF fuel p.schema.allOf prop

/-- The allOf walk of `extractDiscriminatorValue`: each member's direct
properties are consulted, then the member is searched recursively. -/
def extractDVAllOfF : Nat → List SchemaProxy → String → String
  | _, [], _ => ""
  | 0, _ :: _, _ => ""
  | fuel + 1, p :: rest, prop =>
    let v1 := extractDiscriminatorFromProperties p.schema prop
    if v1 ≠ "" then v1
    else
      let v2 := extractDiscriminatorValueF fuel p prop
      if v2 ≠ "" then v2 else extractDVAllOfF fuel rest prop

end

/-- `isStricterElement`: strictly more active constraint fields. -/
def isStricterElement (e1 e2 : UnionElement) : Bool :=
  (e1 : UnionElementF GoSchema).schema.f.constraints.count > (e2 : UnionElementF GoSchema).schema.f.constraints.count

/-- One step of `deduplicateUnionElements`: the Go code keeps a map from
type name to the index of its unique occurrence in `result` and performs
`result[existingIdx] = elem` when the newcomer is stricter; replacing the
first (unique) entry with a matching name is the same operation. -/
def dedupStep (result : List UnionElement) (e : UnionElement) : List UnionElement :=
  if result.any (fun r => (r : UnionElementF GoSchema).typeName == (e : UnionElementF GoSchema).typeName) then
    dedupReplace result e
  else result ++ [e]
where
  dedupReplace : List UnionElement → UnionElement → List UnionElement
    | [], _ => []
    | r :: rs, e =>
      if (r : UnionElementF GoSchema).typeName == (e : UnionElementF GoSchema).typeName then
        (if isStricterElement e r then e else r) :: rs
      else r :: dedupReplace rs e

/-- `deduplicateUnionElements`: left fold of `dedupStep` from an empty
result list, preserving first-occurrence order. -/
def deduplicateUnionElements (elements : List UnionElement) : List UnionElement :=
  elements.foldl dedupStep []

/-- `enhanceSchema`: merge combinator-derived properties and union
elements into a resolved IR, rebuilding the struct declaration; adopt the
combinator result's reference and set the alias flag when it carries one. -/
def enhanceSchema (src other : GoSchema) (options : ParseOptions) : GoSchema :=
  if other.f.unionElements.isEmpty && other.f.properties.isEmpty then src
  else
    let s1 := GoSchema.mk { src.f with
      properties := src.f.properties ++ other.f.properties
      discriminator := other.f.discriminator
      unionElements := other.f.unionElements
      additionalTypes := src.f.additionalTypes ++ other.f.additionalTypes }
    let srcFields := genFieldsFromProperties s1.f.properties options
    let s2 := GoSchema.mk { s1.f with goType := s1.createGoStruct srcFields }
    let s3 := GoSchema.mk { s2.f with refType := other.f.refType }
    if other.f.refType ≠ "" then GoSchema.mk { s3.f with defineViaAlias := true } else s3

/-- Modelled from the spec: the constraint extractor (`newConstraints` of
the current revision is not under src/) derives required/nullable facts
for a property from the parent's required list and the node's nullable
flag. -/
def newConstraintsModel (s : Schema) (name : String) (parentRequired : List String) : Constraints :=
  let required := parentRequired.contains name
  let nullable := if ¬ required then true else s.nullable.getD false
  { required := some required
    nullable := some nullable
    validationTags := if required then ["required"] else [] }

/-- Modelled from the spec: `createEnumsSchema` (not under src/) —
"presence of an enum list produces an enum IR": a named base type plus
one constant per enum value. -/
def createEnumsSchema (schema : Schema) (_options : ParseOptions) : Except GenErr GoSchema :=
  let base := if schema.typeList.contains "integer" then "int" else "string"
  .ok (GoSchema.mk {
    goType := base
    enumValues := schema.enum.map (fun v => (schemaNameToTypeName v, v))
    description := schema.description
    openAPISchema := some schema })

/-- `isSelfReference` (the closure inside `generateUnion`): the element's
reference equals the schema currently being defined, where the current
reference falls back to `#/components/schemas/<path head>` when the
options carry no reference. -/
def isSelfReference (options : ParseOptions) (ref : String) : Bool :=
  if ref = "" then false
  else
    let currentRef :=
      if options.reference = "" && options.path.length ≥ 1 then
        "#/components/schemas/" ++ options.path.headD ""
      else options.reference
    currentRef ≠ "" && ref == currentRef

/-- An element whose declared type is exactly the null type
(`len(schema.Type) == 1 && slices.Contains(schema.Type, "null")`). -/
def isNullTypeElement (e : SchemaProxy) : Bool :=
  e.schema.typeList.length == 1 && e.schema.typeList.contains "null"

/-- The null filter of `generateUnion`: elements whose declared type is
exactly the null type are dropped. -/
def filterNonNull (elements : List SchemaProxy) : List SchemaProxy :=
  elements.filter (fun e => ¬ isNullTypeElement e)

/-- Update the discriminator mapping of a union IR under construction
(`outSchema.Discriminator.Mapping[k] = v`). -/
def setDiscMapping (g : GoSchema) (k v : String) : GoSchema :=
  match g.f.discriminator with
  | none => g
  | some d => GoSchema.mk { g.f with discriminator := some { d with mapping := mapSet d.mapping k v } }

/-- Force the nullable constraint of an IR
(`schema.Constraints.Nullable = ptr(true)`). -/
def GoSchema.setNullableTrue (g : GoSchema) : GoSchema :=
  GoSchema.mk { g.f with constraints := { g.f.constraints with nullable := some true } }

/-- Append a union element for a resolved element schema, skipping the
empty-record type (`struct{}` carries nothing to marshal). -/
def entryGoType (elementSchema : GoSchema) : String :=
  elementSchema.f.goType

/-- The type-hoisting step of the `generateUnion` loop: inline
non-primitive elements get a path-derived name (registering a definition
unless the declaration already equals that name); non-primitive elements
reached through a non-standard (path-based) reference resolving to an
inline struct also get a hoisted name unless one already exists; either
way the element's own auxiliary definitions are collected.  Returns the
updated element schema and accumulator. -/
def unionElemAdjust (elementPath : List String) (ref : String)
    (elementSchema acc : GoSchema) : GoSchema × GoSchema :=
  if ref == "" && ¬ isPrimitiveType elementSchema.f.goType then
    let elementName := pathToTypeName elementPath
    let acc :=
      if elementSchema.typeDecl ≠ elementName then
        let td : TypeDefinition := {
          name := elementName
          schema := elementSchema
          specLocation := "union"
          jsonName := "-"
          needsMarshalerFlag := needsMarshaler elementSchema }
        GoSchema.mk { acc.f with additionalTypes := acc.f.additionalTypes ++ [td] }
      else acc
    let elementSchema := GoSchema.mk { elementSchema.f with goType := elementName }
    let acc := GoSchema.mk
      { acc.f with additionalTypes := acc.f.additionalTypes ++ elementSchema.f.additionalTypes }
    (elementSchema, acc)
  else if ref ≠ "" && ¬ isPrimitiveType elementSchema.f.goType then
    let es_acc2 :=
      if ¬ isStandardComponentReference ref && strStarts elementSchema.f.goType ("struct") then
        let elementName := pathToTypeName elementPath
        let typeExists := elementSchema.f.additionalTypes.any (fun td => td.name == elementName)
        if ¬ typeExists then
          let td : TypeDefinition := {
            name := elementName
            schema := elementSchema
            specLocation := "union"
            jsonName := "-"
            needsMarshalerFlag := needsMarshaler elementSchema }
          (GoSchema.mk { elementSchema.f with goType := elementName },
           GoSchema.mk { acc.f with additionalTypes := acc.f.additionalTypes ++ [td] })
        else (elementSchema, acc)
      else (elementSchema, acc)
    let elementSchema := es_acc2.1
    let acc := GoSchema.mk
      { es_acc2.2.f with
        additionalTypes := es_acc2.2.f.additionalTypes ++ elementSchema.f.additionalTypes }
    (elementSchema, acc)
  else (elementSchema, acc)

/-- The discriminator step of the `generateUnion` loop: explicit mapping
entries whose reference matches the element all map to the element's Go
type (no break, so one reference can serve several discriminator
values); otherwise the value extracted from the element's enum is used,
then the reference name; an inline element with no determinable value is
an error when an explicit mapping table exists and is skipped otherwise.
Returns the updated accumulator and whether the element is skipped. -/
def unionElemDiscF (fuel : Nat) (e : SchemaProxy) (d : DiscIn)
    (elementSchema acc : GoSchema) : Except GenErr (GoSchema × Bool) :=
  let matchedKVs := d.mapping.filter (fun kv => kv.2 == e.ref)
  let acc := matchedKVs.foldl (fun a kv => setDiscMapping a kv.1 elementSchema.f.goType) acc
  if ¬ matchedKVs.isEmpty then .ok (acc, false)
  else
    let dv := extractDiscriminatorValueF fuel e d.propertyName
    if dv == "" then
      if e.ref == "" then
        if d.mapping.length ≠ 0 then .error .ambiguousDiscriminatorMapping
        else .ok (acc, true)
      else .ok (setDiscMapping acc (refPathToObjName e.ref) elementSchema.f.goType, false)
    else .ok (setDiscMapping acc dv elementSchema.f.goType, false)

mutual

/-- `GenerateGoSchema`, the schema IR builder.  A nil proxy yields the
catch-all `any` IR before any fuel is consumed.  A caller-supplied
reference short-circuits into an alias IR.  Otherwise the combinator
resolver runs first, a complete alias-like combinator result is returned
unchanged, an `x-go-type` override short-circuits (enhanced with the
combinator result), and untyped/object, enum and primitive nodes are
delegated, each enhanced with the combinator result. -/
def GenerateGoSchemaF : Nat → Option SchemaProxy → ParseOptions → Except GenErr GoSchema
  | _, none, _ => .ok (GoSchema.mk { goType := "any" })
  | 0, some _, _ => .error .outOfFuel
  | fuel + 1, some proxy, options =>
    if options.reference ≠ "" then do
      let refType ← refPathToGoType options.reference
      .ok (GoSchema.mk {
        goType := refType
        defineViaAlias := true
        description := proxy.schema.description
        openAPISchema := some proxy.schema })
    else genSchemaNoRefF fuel proxy options

/-- The continuation of `GenerateGoSchema` for schemas without a
caller-supplied reference: combinator resolution first, then the
`x-go-type` override, then object/enum/primitive handling, each enhanced
with the combinator result. -/
def genSchemaNoRefF : Nat → SchemaProxy → ParseOptions → Except GenErr GoSchema
  | 0, _, _ => .error .outOfFuel
  | fuel + 1, proxy, options => do
    let schema := proxy.schema
    let outSchema := GoSchema.mk { description := schema.description, openAPISchema := some schema }
    let merged ← createFromCombinatorF fuel schema options
    if ¬ merged.isZero && merged.f.defineViaAlias then .ok merged
    else
      match mapGet schema.extensions extPropGoType with
      | some extv => do
        let typeName ← parseString extv
        let out1 := GoSchema.mk { outSchema.f with goType := typeName, defineViaAlias := true }
        .ok (enhanceSchema out1 merged options)
      | none => do
        let _outSchemaSkip ←
          match mapGet schema.extensions extPropGoTypeSkipOptionalPointer with
          | some v => do
            let b ← parseBooleanValue v
            pure (GoSchema.mk { outSchema.f with skipOptionalPointer := b })
          | none => pure outSchema
        if schema.typ.isNone || schema.typeList.contains "object" then do
          let res ← createObjectSchemaF fuel schema options
          .ok (enhanceSchema res merged options)
        else if schema.enum.length > 0 then do
          let res ← createEnumsSchema schema options
          .ok (enhanceSchema res merged options)
        else do
          let out2 ← oapiSchemaToGoTypeF fuel schema options
          .ok (enhanceSchema out2 merged options)

/-- `createFromCombinator`: resolve allOf/anyOf/oneOf of a schema node
into either a directly returned simple result or a record whose
properties point at the merged/union types. -/
def createFromCombinatorF : Nat → Schema → ParseOptions → Except GenErr GoSchema
  | 0, _, _ => .error .outOfFuel
  | fuel + 1, schema, options =>
    let path := options.path
    let hasAllOf := ¬ schema.allOf.isEmpty
    let hasAnyOf := ¬ schema.anyOf.isEmpty
    let hasOneOf := ¬ schema.oneOf.isEmpty
    if ¬ hasAllOf && ¬ hasAnyOf && ¬ hasOneOf then .ok (GoSchema.mk {})
    else do
      let stage1 ←
        if hasAllOf then do
          let allOfSchema ← mergeAllOfSchemasF fuel schema.allOf options
          if allOfSchema.f.properties.isEmpty && ¬ hasAnyOf && ¬ hasOneOf then
            pure (Sum.inl allOfSchema)
          else
            pure (Sum.inr (allOfSchema.f.properties, allOfSchema.f.additionalTypes))
        else pure (Sum.inr ([], []))
      match stage1 with
      | .inl res => .ok res
      | .inr (props0, types0) => do
        let stage2 ←
          if hasAnyOf then do
            let anyOfPath := path ++ ["anyOf"]
            let anyOfSchema ← generateUnionF fuel schema.anyOf none (options.withPath anyOfPath)
            if anyOfSchema.f.unionElements.isEmpty && ¬ hasAllOf && ¬ hasOneOf then
              pure (Sum.inl anyOfSchema)
            else
              let anyOfFields := genFieldsFromProperties anyOfSchema.f.properties options
              let anyOfSchema := GoSchema.mk
                { anyOfSchema.f with goType := anyOfSchema.createGoStruct anyOfFields }
              let anyOfName := pathToTypeName anyOfPath
              let td : TypeDefinition := {
                name := anyOfName
                schema := anyOfSchema
                specLocation := "union"
                jsonName := "-"
                needsMarshalerFlag := needsMarshaler anyOfSchema
                hasSensitiveDataFlag := hasSensitiveData anyOfSchema }
              let prop : Property := {
                goName := anyOfName
                schema := GoSchema.mk { refType := anyOfName }
                constraints := { nullable := some true } }
              pure (Sum.inr (props0 ++ [prop], types0 ++ [td]))
          else pure (Sum.inr (props0, types0))
        match stage2 with
        | .inl res => .ok res
        | .inr (props1, types1) => do
          let stage3 ←
            if hasOneOf then do
              let oneOfPath := path ++ ["oneOf"]
              let oneOfSchema ← generateUnionF fuel schema.oneOf schema.discriminator
                (options.withPath oneOfPath)
              if oneOfSchema.f.unionElements.isEmpty && ¬ hasAllOf && ¬ hasAnyOf then
                pure (Sum.inl oneOfSchema)
              else
                let oneOfFields := genFieldsFromProperties oneOfSchema.f.properties options
                let oneOfSchema := GoSchema.mk
                  { oneOfSchema.f with goType := oneOfSchema.createGoStruct oneOfFields }
                let oneOfName := pathToTypeName oneOfPath
                let td : TypeDefinition := {
                  name := oneOfName
                  schema := oneOfSchema
                  specLocation := "union"
                  jsonName := "-"
                  needsMarshalerFlag := needsMarshaler oneOfSchema
                  hasSensitiveDataFlag := hasSensitiveData oneOfSchema }
                let prop : Property := {
                  goName := oneOfName
                  schema := GoSchema.mk { refType := oneOfName }
                  constraints := { nullable := some true } }
                pure (Sum.inr (props1 ++ [prop], types1 ++ [td]))
            else pure (Sum.inr (props1, types1))
          match stage3 with
          | .inl res => .ok res
          | .inr (props, types) =>
            let out := GoSchema.mk { properties := props }
            let fields := genFieldsFromProperties props options
            .ok (GoSchema.mk { out.f with
              goType := out.createGoStruct fields
              additionalTypes := types })

/-- `mergeAllOfSchemas`: the structural allOf merge when no member
contains a union (with the single-`$ref`-plus-metadata optimization), and
the mixin encoding, one named field per member, when one does. -/
def mergeAllOfSchemasF : Nat → List SchemaProxy → ParseOptions → Except GenErr GoSchema
  | 0, _, _ => .error .outOfFuel
  | fuel + 1, allOf, options =>
    if allOf.isEmpty then .ok (GoSchema.mk {})
    else
      let path := options.path
      let allMergeable := ¬ containsUnionL allOf
      if allMergeable then
        let refMembers := allOf.filter (fun p => p.ref ≠ "")
        let refCount := refMembers.length
        let metadataOnlyCount :=
          (allOf.filter (fun p => p.ref == "" && isMetadataOnlySchema p.schema)).length
        if refCount == 1 && refCount + metadataOnlyCount == allOf.length then
          match refMembers.getLast? with
          | some rp => GenerateGoSchemaF fuel (some rp) (options.withReference rp.ref)
          | none => .error .badReference
        else do
          let lastRef := ((refMembers.getLast?).map SchemaProxy.ref).getD ""
          let merged ← mergeAllOfF fuel allOf
          let mergedS := merged.getD {}
          let opts :=
            if lastRef ≠ "" && mergedS.properties.isNone then options.withReference lastRef
            else options
          GenerateGoSchemaF fuel (some (.mk "" mergedS)) opts
      else do
        let pt ← allOfMixinF fuel allOf 0 options
        let out := GoSchema.mk { properties := pt.1 }
        let outGoType := out.createGoStruct (genFieldsFromProperties pt.1 options)
        let outU := GoSchema.mk { out.f with goType := outGoType }
        let td : TypeDefinition := {
          name := pathToTypeName path
          schema := outU
          specLocation := "union"
          needsMarshalerFlag := needsMarshaler outU
          hasSensitiveDataFlag := hasSensitiveData outU }
        .ok (GoSchema.mk { outU.f with additionalTypes := outU.f.additionalTypes ++ [td] ++ pt.2 })

/-- The per-member loop of the mixin encoding in `mergeAllOfSchemas`:
referenced members become fields named after the referenced type (with
hoisting for path-based references); inline members are resolved through
the combinator resolver and hoisted under a path-derived name. -/
def allOfMixinF : Nat → List SchemaProxy → Nat → ParseOptions →
    Except GenErr (List Property × List TypeDefinition)
  | _, [], _, _ => .ok ([], [])
  | 0, _ :: _, _, _ => .error .outOfFuel
  | fuel + 1, p :: rest, i, options =>
    let subPath := options.path ++ ["allOf_" ++ toString i]
    if p.ref ≠ "" then do
      let typeName ← refPathToGoType p.ref
      let addHere ←
        if ¬ isStandardComponentReference p.ref then do
          let resolved ← GenerateGoSchemaF fuel (some p)
            ((options.withReference p.ref).withPath subPath)
          let typeExists := resolved.f.additionalTypes.any (fun td => td.name == typeName)
          let tds : List TypeDefinition :=
            if ¬ typeExists && resolved.typeDecl ≠ typeName then
              [{ name := typeName
                 schema := resolved
                 specLocation := "union"
                 needsMarshalerFlag := needsMarshaler resolved
                 hasSensitiveDataFlag := hasSensitiveData resolved }]
            else []
          pure (tds ++ resolved.f.additionalTypes)
        else pure []
      let prop : Property := {
        goName := typeName
        schema := GoSchema.mk { refType := typeName }
        constraints := { nullable := some false } }
      let rec' ← allOfMixinF fuel rest (i + 1) options
      .ok (prop :: rec'.1, addHere ++ rec'.2)
    else do
      let resolved ← createFromCombinatorF fuel p.schema (options.withPath subPath)
      if resolved.isZero then allOfMixinF fuel rest (i + 1) options
      else
        let fieldName := pathToTypeName subPath
        let prop : Property := {
          goName := fieldName
          schema := GoSchema.mk { refType := fieldName }
          constraints := { nullable := some true } }
        let td : TypeDefinition := {
          name := fieldName
          schema := resolved
          specLocation := "union"
          needsMarshalerFlag := needsMarshaler resolved
          hasSensitiveDataFlag := hasSensitiveData resolved }
        let rec' ← allOfMixinF fuel rest (i + 1) options
        .ok (prop :: rec'.1, (td :: resolved.f.additionalTypes) ++ rec'.2)

/-- `generateUnion`, entry: single-element unions without a discriminator
collapse to the element's IR unless the element is a self-reference. -/
def generateUnionF : Nat → List SchemaProxy → Option DiscIn → ParseOptions → Except GenErr GoSchema
  | 0, _, _, _ => .error .outOfFuel
  | fuel + 1, elements, discriminator, options =>
    let disc0 : Option DiscOut :=
      discriminator.map (fun d => { property := d.propertyName, mapping := [] })
    let single : Option SchemaProxy := match elements with | [e] => some e | _ => none
    match single, discriminator with
    | some e, none =>
      if ¬ isSelfReference options e.ref then
        GenerateGoSchemaF fuel (some e) ((options.withReference e.ref).withPath options.path)
      else
        generateUnionRestF fuel elements discriminator options disc0
    | _, _ => generateUnionRestF fuel elements discriminator options disc0

/-- `generateUnion`, null filtering: null-typed elements are dropped; a
single surviving element without a discriminator collapses to its IR with
the nullable flag forced when a null element was dropped, unless it is a
self-reference. -/
def generateUnionRestF : Nat → List SchemaProxy → Option DiscIn → ParseOptions →
    Option DiscOut → Except GenErr GoSchema
  | 0, _, _, _, _ => .error .outOfFuel
  | fuel + 1, elements, discriminator, options, disc0 =>
    let nonNull := filterNonNull elements
    let hasNull := elements.any (fun e => isNullTypeElement e)
    let singleNN : Option SchemaProxy := match nonNull with | [e] => some e | _ => none
    match singleNN, discriminator with
    | some e, none =>
      if ¬ isSelfReference options e.ref then do
        let schema ← GenerateGoSchemaF fuel (some e)
          ((options.withReference e.ref).withPath options.path)
        if hasNull then .ok schema.setNullableTrue else .ok schema
      else
        unionMainF fuel nonNull discriminator options disc0
    | _, _ => unionMainF fuel nonNull discriminator options disc0

/-- `generateUnion`, main path: run the element loop, deduplicate the
union elements, and require every element's type name to be covered by
the discriminator mapping when a discriminator is present. -/
def unionMainF : Nat → List SchemaProxy → Option DiscIn → ParseOptions → Option DiscOut →
    Except GenErr GoSchema
  | 0, _, _, _, _ => .error .outOfFuel
  | fuel + 1, elems, discriminator, options, disc0 => do
    let out ← unionLoopF fuel elems 0 discriminator options (GoSchema.mk { discriminator := disc0 })
    let out := GoSchema.mk { out.f with unionElements := deduplicateUnionElements out.f.unionElements }
    match out.f.discriminator with
    | some d =>
      let mappedTypes := d.mapping.map Prod.snd
      if out.f.unionElements.any (fun ue => ¬ mappedTypes.contains ue.typeName) then
        .error .discriminatorNotAllMapped
      else .ok out
    | none => .ok out

/-- The per-element loop of `generateUnion`: resolve the element, hoist
non-primitive inline and path-referenced elements under path-derived
names, fill the discriminator mapping (explicit entries first, else the
extracted enum value, else the reference name; an inline element without
a determinable value is an error under an explicit mapping and is skipped
otherwise), and append the union element unless it is the empty record. -/
def unionLoopF : Nat → List SchemaProxy → Nat → Option DiscIn → ParseOptions → GoSchema →
    Except GenErr GoSchema
  | _, [], _, _, _, acc => .ok acc
  | 0, _ :: _, _, _, _, _ => .error .outOfFuel
  | fuel + 1, e :: rest, i, discriminator, options, acc => do
    let elementPath := options.path ++ [toString i]
    let opts := (options.withReference e.ref).withPath elementPath
    let elementSchema0 ← GenerateGoSchemaF fuel (some e) opts
    let ea := unionElemAdjust elementPath e.ref elementSchema0 acc
    match discriminator with
    | some d =>
      match unionElemDiscF fuel e d ea.1 ea.2 with
      | .error er => .error er
      | .ok (acc2, true) => unionLoopF fuel rest (i + 1) discriminator options acc2
      | .ok (acc2, false) => unionAppendF fuel rest i discriminator options acc2 ea.1
    | none => unionAppendF fuel rest i discriminator options ea.2 ea.1

/-- The tail of one loop iteration of `generateUnion`: skip the empty
record type, otherwise append the union element, then continue. -/
def unionAppendF : Nat → List SchemaProxy → Nat → Option DiscIn → ParseOptions → GoSchema →
    GoSchema → Except GenErr GoSchema
  | 0, _, _, _, _, _, _ => .error .outOfFuel
  | fuel + 1, rest, i, discriminator, options, acc, elementSchema =>
    if elementSchema.f.goType == "struct\x7b\x7d" then
      unionLoopF fuel rest (i + 1) discriminator options acc
    else
      unionLoopF fuel rest (i + 1) discriminator options
        (GoSchema.mk { acc.f with
          unionElements := acc.f.unionElements ++
            [{ typeName := elementSchema.f.goType, schema := elementSchema }] })

/-- Modelled from the spec: `createObjectSchema` (not under src/) —
"untyped or explicitly object-typed nodes become record IRs": resolve
each property, derive its constraints, resolve a schema-valued
additionalProperties rule, and render the inline struct declaration. -/
def createObjectSchemaF : Nat → Schema → ParseOptions → Except GenErr GoSchema
  | 0, _, _ => .error .outOfFuel
  | fuel + 1, schema, options => do
    let props ← objectPropsF fuel (schema.properties.getD []) schema options
    let hasAP := schemaHasAdditionalProperties (some schema)
    let apIR ←
      match schema.additionalProps with
      | some (.inl p) => (GenerateGoSchemaF fuel (some p) (options.withReference p.ref)).map some
      | _ => pure none
    let out := GoSchema.mk {
      properties := props
      hasAdditionalProperties := hasAP
      additionalPropertiesType := apIR
      description := schema.description
      openAPISchema := some schema
      additionalTypes := props.foldl (fun acc p => acc ++ p.schema.f.additionalTypes) [] }
    .ok (GoSchema.mk { out.f with goType := out.createGoStruct (genFieldsFromProperties props options) })

/-- The property loop of the modelled `createObjectSchema`. -/
def objectPropsF : Nat → List (String × SchemaProxy) → Schema → ParseOptions →
    Except GenErr (List Property)
  | _, [], _, _ => .ok []
  | 0, _ :: _, _, _ => .error .outOfFuel
  | fuel + 1, (name, p) :: rest, schema, options => do
    let pg ← GenerateGoSchemaF fuel (some p)
      ((options.withReference p.ref).withPath (options.path ++ [name]))
    let prop : Property := {
      goName := schemaNameToTypeName name
      jsonFieldName := name
      schema := pg
      constraints := newConstraintsModel p.schema name schema.required }
    let ps ← objectPropsF fuel rest schema options
    .ok (prop :: ps)

/-- Modelled from the spec: `oapiSchemaToGoType` (not under src/) —
"otherwise the node is resolved as a primitive (string/number/integer/
boolean) with format-specific refinement"; arrays resolve their item
schema and wrap it in a slice. -/
def oapiSchemaToGoTypeF : Nat → Schema → ParseOptions → Except GenErr GoSchema
  | 0, _, _ => .error .outOfFuel
  | fuel + 1, schema, options =>
    let t := schema.typeList
    if t.contains "array" then do
      let itemOpts := match schema.items with | some it => options.withReference it.ref | none => options
      let itemIR ← GenerateGoSchemaF fuel schema.items itemOpts
      .ok (GoSchema.mk {
        goType := "[]" ++ itemIR.typeDecl
        arrayType := some itemIR
        defineViaAlias := true
        description := schema.description
        openAPISchema := some schema })
    else
      let goType :=
        if t.contains "string" then
          if schema.format == "date-time" || schema.format == "date" then "time.Time" else "string"
        else if t.contains "integer" then
          if schema.format == "int32" then "int32"
          else if schema.format == "int64" then "int64"
          else "int"
        else if t.contains "number" then
          if schema.format == "float" then "float32" else "float64"
        else if t.contains "boolean" then "bool"
        else "any"
      .ok (GoSchema.mk {
        goType := goType
        defineViaAlias := true
        description := schema.description
        openAPISchema := some schema })

end

/-!
The reference reachability pruner (`pruneSchema`, `findOperationRefs`,
`removeOrphanedComponents`).  The document graph is modelled at component
granularity: every named component carries the reference strings its body
contributes when walked (`refs`, covering its schema tree, content,
headers, response links and its own `$ref`-ness, with derived parents
already included) plus the references embedded in its free-text extension
values keyed by extension name (`extRefs`), which survive the first-pass
cleanup only for allow-listed keys.  The retained operations contribute
`opRefs`/`opExtRefs`; pruning deletes only components, never operations,
so the operation contribution is constant across passes.  `findOperationRefs`
walks operations plus the bodies of schema, parameter, request-body,
response and header components — link and callback component bodies are
not walked by the source.  The Go function returns a sorted duplicate-free
slice of the reference set; the result is consumed only through
`slices.Contains`, so the model returns the concatenation, which has the
same membership.  `RenderAndReload` (re-render and reparse between passes)
is semantically the identity on the model.
-/

/-- The walk contribution of one named component. -/
structure CompBody : Type where
  refs : List String := []
  extRefs : List (String × String) := []
  deriving Repr, DecidableEq

/-- The seven pruned component kinds. -/
inductive CompKind : Type where
  | schemas | parameters | requestBodies | responses | headers | links | callbacks
  deriving Repr, DecidableEq

/-- The URL segment of a component kind. -/
def CompKind.segment : CompKind → String
  | .schemas => "schemas"
  | .parameters => "parameters"
  | .requestBodies => "requestBodies"
  | .responses => "responses"
  | .headers => "headers"
  | .links => "links"
  | .callbacks => "callbacks"

/-- The synthesized reference string of a named component
(`fmt.Sprintf("#/components/%s/%s", kind, key)`). -/
def synthRef (k : CompKind) (name : String) : String :=
  "#/components/" ++ k.segment ++ "/" ++ name

/-- The pruner's working view of the document. -/
structure PruneDoc : Type where
  opRefs : List String := []
  opExtRefs : List (String × String) := []
  schemas : List (String × CompBody) := []
  parameters : List (String × CompBody) := []
  requestBodies : List (String × CompBody) := []
  responses : List (String × CompBody) := []
  headers : List (String × CompBody) := []
  links : List (String × CompBody) := []
  callbacks : List (String × CompBody) := []
  deriving Repr, DecidableEq

/-- The component collection of a kind. -/
def PruneDoc.comps (d : PruneDoc) : CompKind → List (String × CompBody)
  | .schemas => d.schemas
  | .parameters => d.parameters
  | .requestBodies => d.requestBodies
  | .responses => d.responses
  | .headers => d.headers
  | .links => d.links
  | .callbacks => d.callbacks

/-- What one walked body contributes to the reference set. -/
def bodyContribution (b : CompBody) : List String :=
  b.refs ++ b.extRefs.map Prod.snd

/-- Flatten the contributions of a component collection. -/
def compContribution (l : List (String × CompBody)) : List String :=
  l.foldr (fun nb acc => bodyContribution nb.2 ++ acc) []

/-- `findOperationRefs`: the reference set collected from every retained
operation (parameters, request body, responses with their content,
headers and links, and callback operations) and, separately, from the
bodies of schema, parameter, request-body, response and header
components.  Link and callback component bodies are not walked. -/
def findOperationRefs (d : PruneDoc) : List String :=
  d.opRefs ++ d.opExtRefs.map Prod.snd ++
    compContribution d.parameters ++ compContribution d.requestBodies ++
    compContribution d.responses ++ compContribution d.headers ++
    compContribution d.schemas

/-- One kind's deletion sweep: components whose synthesized reference is
absent from the set are removed; the survivors keep their order. -/
def sweepKind (k : CompKind) (refs : List String) (l : List (String × CompBody)) :
    List (String × CompBody) × Nat :=
  let kept := l.filter (fun nb => refs.contains (synthRef k nb.1))
  (kept, l.length - kept.length)

/-- `removeOrphanedComponents`: sweep all seven component kinds and
count the deletions. -/
def removeOrphanedComponents (d : PruneDoc) (refs : List String) : PruneDoc × Nat :=
  let s := sweepKind .schemas refs d.schemas
  let p := sweepKind .parameters refs d.parameters
  let rb := sweepKind .requestBodies refs d.requestBodies
  let rs := sweepKind .responses refs d.responses
  let h := sweepKind .headers refs d.headers
  let li := sweepKind .links refs d.links
  let cb := sweepKind .callbacks refs d.callbacks
  ({ d with
      schemas := s.1, parameters := p.1, requestBodies := rb.1,
      responses := rs.1, headers := h.1, links := li.1, callbacks := cb.1 },
   s.2 + p.2 + rb.2 + rs.2 + h.2 + li.2 + cb.2)

/-- First-pass cleanup of one body: extension values survive only under
allow-listed keys. -/
def cleanupBody (allowed : List String) (b : CompBody) : CompBody :=
  { b with extRefs := b.extRefs.filter (fun kv => allowed.contains kv.1) }

/-- Cleanup of a component collection. -/
def cleanupComps (allowed : List String) (l : List (String × CompBody)) :
    List (String × CompBody) :=
  l.map (fun nb => (nb.1, cleanupBody allowed nb.2))

/-- The first-pass cleanup (`firstIteration` branch of `pruneSchema`):
filter extension values everywhere to the allow-list and drop the
callback components (`model.Model.Components.Callbacks = nil`).
Webhooks, security schemes and example collections, also dropped there,
are outside the pruned component kinds and outside the model. -/
def cleanupDoc (allowed : List String) (d : PruneDoc) : PruneDoc :=
  { opRefs := d.opRefs
    opExtRefs := d.opExtRefs.filter (fun kv => allowed.contains kv.1)
    schemas := cleanupComps allowed d.schemas
    parameters := cleanupComps allowed d.parameters
    requestBodies := cleanupComps allowed d.requestBodies
    responses := cleanupComps allowed d.responses
    headers := cleanupComps allowed d.headers
    links := cleanupComps allowed d.links
    callbacks := [] }

/-- The pruner's error type (`PruneIterationLimitExceeded`). -/
inductive PruneErr : Type where
  | iterationLimitExceeded : PruneErr
  deriving Repr, DecidableEq

/-- The pruner's result: the stable document, the total number of deleted
components and the number of loop iterations performed (a ghost counter;
the Go code tracks the iteration count in a local variable). -/
structure PruneOutcome : Type where
  doc : PruneDoc
  removedTotal : Nat
  passes : Nat
  deriving Repr, DecidableEq

/-- The `pruneSchema` loop: one fuel unit per iteration (the Go code
increments `iteration` per pass and fails on exceeding the cap); the
first iteration only cleans up, each later pass computes the reference
set, deletes orphans, re-renders (identity on the model) and returns
when a pass deleted nothing. -/
def pruneLoopF (allowed : List String) :
    Nat → Bool → PruneDoc → Nat → Except PruneErr PruneOutcome
  | 0, _, _, _ => .error .iterationLimitExceeded
  | fuel + 1, true, d, passes => pruneLoopF allowed fuel false (cleanupDoc allowed d) (passes + 1)
  | fuel + 1, false, d, passes =>
    let refs := findOperationRefs d
    let dr := removeOrphanedComponents d refs
    if dr.2 < 1 then .ok ⟨dr.1, 0, passes + 1⟩
    else
      match pruneLoopF allowed fuel false dr.1 (passes + 1) with
      | .ok out => .ok ⟨out.doc, dr.2 + out.removedTotal, out.passes⟩
      | .error e => .error e

/-- The iteration safety cap (`maxIterations := 1000`). -/
def maxPruneIterations : Nat := 1000

/-- `pruneSchema`: run the loop with the iteration cap, starting in the
cleanup phase. -/
def pruneSchemaF (allowed : List String) (d : PruneDoc) : Except PruneErr PruneOutcome :=
  pruneLoopF allowed maxPruneIterations true d 0

/-- A document on which a pruning pass deletes nothing. -/
def stablePruneDoc (d : PruneDoc) : Prop :=
  (removeOrphanedComponents d (findOperationRefs d)).2 = 0

/-- Pairwise choice between a kept element and a newcomer with the same
type name, following the claim's words: the higher constraint count wins,
a tie keeps the element already in place. -/
def keepStricter (a b : UnionElement) : UnionElement :=
  if isStricterElement b a then b else a

/-- Fold `keepStricter` over the later duplicates of a first occurrence. -/
def keepBest (a : UnionElement) (l : List UnionElement) : UnionElement :=
  l.foldl keepStricter a

/-- The claim-side deduplication walk: emit, for each type name not seen
yet, the pairwise-stricter survivor of its duplicate group, in order of
first occurrence. -/
def specGoDedup (seen : List String) : List UnionElement → List UnionElement
  | [] => []
  | e :: tl =>
    if seen.contains (e : UnionElementF GoSchema).typeName then specGoDedup seen tl
    else
      keepBest e (tl.filter (fun x =>
          (x : UnionElementF GoSchema).typeName == (e : UnionElementF GoSchema).typeName)) ::
        specGoDedup ((e : UnionElementF GoSchema).typeName :: seen) tl

/-- Formalised from the claim's words (to be compared with the
source-derived `deduplicateUnionElements`): elements with identical type
names collapse to one; among duplicates the higher constraint count is
kept, ties keep the first occurrence; first-occurrence order is
preserved. -/
def specDedup (l : List UnionElement) : List UnionElement :=
  specGoDedup [] l

/-- The `kind` property carrying the single enum value `cat`. -/
def kindCatProxy : SchemaProxy :=
  .mk "" { typ := some ["string"], enum := ["cat"] }

/-- A referenced `Cat` component schema. -/
def catProxy : SchemaProxy :=
  .mk "#/components/schemas/Cat" { typ := some ["object"] }

/-- A referenced component schema whose `kind` enum collides with the
explicit mapping entry of `Cat`. -/
def evilProxy : SchemaProxy :=
  .mk "#/components/schemas/Evil"
    { typ := some ["object"], properties := some [("kind", kindCatProxy)] }

/-- A discriminator with an explicit `cat` mapping entry only. -/
def petDisc : DiscIn :=
  { propertyName := "kind", mapping := [("cat", "#/components/schemas/Cat")] }

/-- A referenced `TextValue` component schema. -/
def textProxy : SchemaProxy :=
  .mk "#/components/schemas/TextValue" { typ := some ["object"] }

/-- A discriminator mapping two values onto the same component. -/
def textDisc : DiscIn :=
  { propertyName := "kind"
    mapping := [("text", "#/components/schemas/TextValue"),
                ("filterable-text", "#/components/schemas/TextValue")] }

/-- A schema carrying both an `x-go-type` override and an anyOf of two
referenced components. -/
def c8schema : Schema :=
  { extensions := [(extPropGoType, "Foo")]
    anyOf := [.mk "#/components/schemas/A" { typ := some ["string"] },
              .mk "#/components/schemas/B" { typ := some ["integer"] }] }

/-- Options placing `c8schema` at the component path `Thing`. -/
def c8options : ParseOptions := { path := ["Thing"] }

/-- An inline element whose declared type is exactly `null`. -/
def nullProxy : SchemaProxy := .mk "" { typ := some ["null"] }

/-- The alias IR produced for the referenced `Cat` component. -/
def catAliasIR : GoSchema :=
  GoSchema.mk { goType := "Cat", defineViaAlias := true, openAPISchema := some catProxy.schema }

/-- The union IR generated for the two-valued `TextValue` discriminator
example (total function image of the generator). -/
def tvUnionIR : GoSchema :=
  match generateUnionF 12 [textProxy] (some textDisc) {} with
  | .ok g => g
  | .error _ => GoSchema.mk {}

/-- A document with a single schema component referenced by an
operation. -/
def pruneCatDoc : PruneDoc :=
  { opRefs := ["#/components/schemas/Cat"], schemas := [("Cat", {})] }

/-!  Theorems.  The fueled cluster functions are compiled by structural
recursion on the fuel, so they reduce definitionally at constructor-shaped
fuel; the unfolding lemmas below restate one reduction step each and are
proved by `rfl`.  -/

/-- Unfolding of `mergeOpenapiSchemasF` on two present schemas: the type
checks, then the flattening-and-check continuation. -/
theorem mergeOpenapiSchemasF_some_some (fuel : Nat) (s1 s2 : Schema) :
    mergeOpenapiSchemasF fuel (some s1) (some s2) =
      if (getSchemaType (some s2)).isEmpty then .ok (some s1)
      else if (getSchemaType (some s1)).isEmpty then .ok (some s2)
      else if getSchemaType (some s1) ≠ getSchemaType (some s2) then
        .error (.incompatibleTypes (getSchemaType (some s1)) (getSchemaType (some s2)))
      else mergeContinue fuel s1 s2 := by
  cases fuel <;> rfl

/-- Auxiliary: a list of length at least two whose null filter keeps
exactly one element contains a null-typed element. -/
theorem anyNull_of_filter_single (elements : List SchemaProxy) (e : SchemaProxy)
    (hlen : 2 ≤ elements.length) (hf : filterNonNull elements = [e]) :
    elements.any (fun x => isNullTypeElement x) = true := by
  by_contra h
  have hall : ∀ x ∈ elements, ¬ isNullTypeElement x = true := by
    intro x hx hxt
    exact h (List.any_eq_true.mpr ⟨x, hx, hxt⟩)
  have hself : filterNonNull elements = elements := by
    unfold filterNonNull
    apply List.filter_eq_self.mpr
    intro a ha
    simp [hall a ha]
  rw [hself] at hf
  rw [hf] at hlen
  simp at hlen

/-- C10: a nil input schema proxy yields the catch-all `any` IR with no
error, at every fuel level (the nil fallback precedes everything else);
its type declaration is the string `any`. -/
theorem C10_nil_proxy_yields_any (fuel : Nat) (options : ParseOptions) :
    GenerateGoSchemaF fuel none options = .ok (GoSchema.mk { goType := "any" }) ∧
    (GoSchema.mk { goType := "any" } : GoSchema).typeDecl = "any" := by
  constructor
  · cases fuel <;> rfl
  · rfl

/-- C3, counterexample: a schema that declares no type but has properties
is inferred to be object-typed, and merging it with an array-typed schema
fails with the incompatible-types error — although the claim promises
that a schema declaring no type is ignored for type compatibility and
never fails on types. -/
theorem C3_counterexample :
    (({ typ := none, properties := some [("a", .mk "" { typ := some ["string"] })] } : Schema).typ
        = none) ∧
    mergeOpenapiSchemasF 1
        (some { typ := none, properties := some [("a", .mk "" { typ := some ["string"] })] })
        (some { typ := some ["array"] }) =
      .error (.incompatibleTypes ["object"] ["array"]) := by
  exact ⟨rfl, rfl⟩

/-- C3, amended: type compatibility uses `getSchemaType`, which infers
`object` from a properties map and `array` from an items schema when no
type is declared.  If both schemas have a non-empty declared-or-inferred
type and the two type lists differ, the merge fails with the
incompatible-types error in either argument order; if either schema has
neither a declared nor an inferable type, it is ignored and the merge
returns without any error. -/
theorem C3_incompatible_types_amended :
    (∀ (fuel : Nat) (s1 s2 : Schema),
      getSchemaType (some s1) ≠ [] → getSchemaType (some s2) ≠ [] →
      getSchemaType (some s1) ≠ getSchemaType (some s2) →
      mergeOpenapiSchemasF fuel (some s1) (some s2) =
        .error (.incompatibleTypes (getSchemaType (some s1)) (getSchemaType (some s2))) ∧
      mergeOpenapiSchemasF fuel (some s2) (some s1) =
        .error (.incompatibleTypes (getSchemaType (some s2)) (getSchemaType (some s1)))) ∧
    (∀ (fuel : Nat) (s1 s2 : Schema),
      getSchemaType (some s1) = [] ∨ getSchemaType (some s2) = [] →
      ∃ r, mergeOpenapiSchemasF fuel (some s1) (some s2) = .ok r) := by
  have key : ∀ (fuel : Nat) (s1 s2 : Schema),
      getSchemaType (some s1) ≠ [] → getSchemaType (some s2) ≠ [] →
      getSchemaType (some s1) ≠ getSchemaType (some s2) →
      mergeOpenapiSchemasF fuel (some s1) (some s2) =
        .error (.incompatibleTypes (getSchemaType (some s1)) (getSchemaType (some s2))) := by
    intro fuel s1 s2 h1 h2 hne
    rw [mergeOpenapiSchemasF_some_some,
      if_neg (by simpa [List.isEmpty_iff] using h2),
      if_neg (by simpa [List.isEmpty_iff] using h1),
      if_pos hne]
  constructor
  · intro fuel s1 s2 h1 h2 hne
    exact ⟨key fuel s1 s2 h1 h2 hne, key fuel s2 s1 h2 h1 (fun h => hne h.symm)⟩
  · intro fuel s1 s2 h
    rcases h with h | h
    · by_cases h2 : (getSchemaType (some s2)).isEmpty = true
      · exact ⟨some s1, by rw [mergeOpenapiSchemasF_some_some, if_pos h2]⟩
      · exact ⟨some s2, by
          rw [mergeOpenapiSchemasF_some_some, if_neg h2,
            if_pos (by simpa [List.isEmpty_iff] using h)]⟩
    · exact ⟨some s1, by
        rw [mergeOpenapiSchemasF_some_some, if_pos (by simpa [List.isEmpty_iff] using h)]⟩

/-- C3, witness: the amended statement applied to concrete object/array
schemas and to a concrete fully-untyped schema. -/
theorem C3_incompatible_types_amended_witness :
    (mergeOpenapiSchemasF 1 (some { typ := some ["object"] }) (some { typ := some ["array"] }) =
        .error (.incompatibleTypes ["object"] ["array"]) ∧
      mergeOpenapiSchemasF 1 (some { typ := some ["array"] }) (some { typ := some ["object"] }) =
        .error (.incompatibleTypes ["array"] ["object"])) ∧
    (∃ r, mergeOpenapiSchemasF 1 (some ({} : Schema)) (some { typ := some ["array"] }) = .ok r) := by
  refine ⟨C3_incompatible_types_amended.1 1 { typ := some ["object"] } { typ := some ["array"] }
      (by decide) (by decide) (by decide),
    C3_incompatible_types_amended.2 1 {} { typ := some ["array"] } (Or.inl (by decide))⟩

/-- Auxiliary: the additionalProperties merge clause fails only with its
own error. -/
theorem mergeAdditionalProps_error (s1 s2 : Schema) (e : GenErr)
    (h : mergeAdditionalProps s1 s2 = .error e) : e = .mergeAdditionalProperties := by
  unfold mergeAdditionalProps at h
  split_ifs at h
  all_goals rcases h1 : s1.additionalProps with _ | (p1 | b1) <;>
    rcases h2 : s2.additionalProps with _ | (p2 | b2) <;>
      (simp only [h1, h2] at h; simp_all)

/-- C4, counterexample: the format check fires when only one side carries
a format; the default check fires when only one side carries a default;
the uniqueItems check compares pointers and fires for two bitwise-equal
but separately allocated flags — refuting all three conjuncts of the
claim at concrete inputs. -/
theorem C4_counterexample :
    mergeOpenapiSchemasF 1 (some { typ := some ["string"] })
        (some { typ := some ["string"], format := "uuid" }) = .error .differentFormats ∧
    mergeOpenapiSchemasF 1 (some { typ := some ["string"], defaultVal := some 1 })
        (some { typ := some ["string"] }) = .error .differentDefaults ∧
    mergeOpenapiSchemasF 1
        (some { typ := some ["array"], uniqueItems := some { id := 1, val := true } })
        (some { typ := some ["array"], uniqueItems := some { id := 2, val := true } }) =
      .error .differentUniqueItems := by
  exact ⟨rfl, rfl, rfl⟩

/-- C4, amended: for type-compatible schemas with no allOf members, the
scalar checks behave as follows — the format check fails exactly when the
two format strings differ as raw strings (an absent format is the empty
string, so one-sided formats fail too); the default check fails exactly
when either schema carries a default (a single default is not allowed);
the uniqueItems and exclusive-minimum/maximum checks compare the pointer
fields, so they pass when both are absent or the same allocation and fail
otherwise, including for bitwise-equal but separately allocated values;
when all five checks pass, none of these five errors is produced. -/
theorem C4_scalar_checks_amended :
    ∀ (fuel : Nat) (s1 s2 : Schema),
      s1.allOf = [] → s2.allOf = [] →
      getSchemaType (some s1) ≠ [] →
      getSchemaType (some s1) = getSchemaType (some s2) →
      (s1.format ≠ s2.format ∧
        mergeOpenapiSchemasF fuel (some s1) (some s2) = .error .differentFormats) ∨
      (s1.format = s2.format ∧ (s1.defaultVal.isSome ∨ s2.defaultVal.isSome) ∧
        mergeOpenapiSchemasF fuel (some s1) (some s2) = .error .differentDefaults) ∨
      (s1.format = s2.format ∧ s1.defaultVal = none ∧ s2.defaultVal = none ∧
        s1.uniqueItems ≠ s2.uniqueItems ∧
        mergeOpenapiSchemasF fuel (some s1) (some s2) = .error .differentUniqueItems) ∨
      (s1.format = s2.format ∧ s1.defaultVal = none ∧ s2.defaultVal = none ∧
        s1.uniqueItems = s2.uniqueItems ∧ s1.exclusiveMinimum ≠ s2.exclusiveMinimum ∧
        mergeOpenapiSchemasF fuel (some s1) (some s2) = .error .differentExclusiveMin) ∨
      (s1.format = s2.format ∧ s1.defaultVal = none ∧ s2.defaultVal = none ∧
        s1.uniqueItems = s2.uniqueItems ∧ s1.exclusiveMinimum = s2.exclusiveMinimum ∧
        s1.exclusiveMaximum ≠ s2.exclusiveMaximum ∧
        mergeOpenapiSchemasF fuel (some s1) (some s2) = .error .differentExclusiveMax) ∨
      (s1.format = s2.format ∧ s1.defaultVal = none ∧ s2.defaultVal = none ∧
        s1.uniqueItems = s2.uniqueItems ∧ s1.exclusiveMinimum = s2.exclusiveMinimum ∧
        s1.exclusiveMaximum = s2.exclusiveMaximum ∧
        ∀ e, mergeOpenapiSchemasF fuel (some s1) (some s2) = .error e →
          e ≠ .differentFormats ∧ e ≠ .differentDefaults ∧ e ≠ .differentUniqueItems ∧
          e ≠ .differentExclusiveMin ∧ e ≠ .differentExclusiveMax) := by
  intro fuel s1 s2 ha1 ha2 ht1 hteq
  have ht2 : getSchemaType (some s2) ≠ [] := by rw [← hteq]; exact ht1
  have hm : mergeOpenapiSchemasF fuel (some s1) (some s2) =
      mergeTail (getSchemaType (some s1))
        (if ¬ s2.extensions.isEmpty then s2.extensions else [])
        (s1.oneOf ++ s2.oneOf) s1 s2 := by
    rw [mergeOpenapiSchemasF_some_some,
      if_neg (by simpa [List.isEmpty_iff] using ht2),
      if_neg (by simpa [List.isEmpty_iff] using ht1),
      if_neg (by simp [hteq])]
    simp only [mergeContinue, ha1, ha2, List.isEmpty_nil, Bool.not_true, if_neg]
    rfl
  rw [hm]
  unfold mergeTail
  by_cases hf : s1.format ≠ s2.format
  · left
    rw [if_pos hf]
    exact ⟨hf, rfl⟩
  · push_neg at hf
    rw [if_neg (by simp [hf])]
    by_cases hd : (s1.defaultVal.isSome || s2.defaultVal.isSome) = true
    · right; left
      rw [if_pos hd]
      exact ⟨hf, by simpa using hd, rfl⟩
    · have hd1 : s1.defaultVal = none := by
        rcases h1 : s1.defaultVal with _ | v
        · rfl
        · rw [h1] at hd; simp at hd
      have hd2 : s2.defaultVal = none := by
        rcases h2 : s2.defaultVal with _ | v
        · rfl
        · rw [h2] at hd; simp at hd
      rw [if_neg hd]
      by_cases hu : s1.uniqueItems ≠ s2.uniqueItems
      · right; right; left
        rw [if_pos hu]
        exact ⟨hf, hd1, hd2, hu, rfl⟩
      · push_neg at hu
        rw [if_neg (by simp [hu])]
        by_cases hmin : s1.exclusiveMinimum ≠ s2.exclusiveMinimum
        · right; right; right; left
          rw [if_pos hmin]
          exact ⟨hf, hd1, hd2, hu, hmin, rfl⟩
        · push_neg at hmin
          rw [if_neg (by simp [hmin])]
          by_cases hmax : s1.exclusiveMaximum ≠ s2.exclusiveMaximum
          · right; right; right; right; left
            rw [if_pos hmax]
            exact ⟨hf, hd1, hd2, hu, hmin, hmax, rfl⟩
          · push_neg at hmax
            rw [if_neg (by simp [hmax])]
            right; right; right; right; right
            refine ⟨hf, hd1, hd2, hu, hmin, hmax, ?_⟩
            intro e he
            by_cases hro : ¬ ptrEqual s1.readOnly s2.readOnly
            · rw [if_pos hro] at he
              simp only [Except.error.injEq] at he
              subst he
              simp
            · rw [if_neg hro] at he
              by_cases hwo : ¬ ptrEqual s1.writeOnly s2.writeOnly
              · rw [if_pos hwo] at he
                simp only [Except.error.injEq] at he
                subst he
                simp
              · rw [if_neg hwo] at he
                rcases hap : mergeAdditionalProps s1 s2 with e0 | v
                · rw [hap] at he
                  have he2 : (Except.error e0 : Except GenErr (Option Schema)) = .error e := he
                  simp only [Except.error.injEq] at he2
                  subst he2
                  have := mergeAdditionalProps_error s1 s2 e0 hap
                  subst this
                  simp
                · rw [hap] at he
                  have he2 : (Except.ok _ : Except GenErr (Option Schema)) = .error e := he
                  exact Except.noConfusion he2

/-- C4, witness: the amended statement applied to a concrete pair that
fails the format check one-sidedly. -/
theorem C4_scalar_checks_amended_witness :
    mergeOpenapiSchemasF 1 (some { typ := some ["string"], format := "uuid" })
      (some { typ := some ["string"] }) = .error .differentFormats := by
  rcases C4_scalar_checks_amended 1 { typ := some ["string"], format := "uuid" }
      { typ := some ["string"] } rfl rfl (by decide) rfl with
    h | h | h | h | h | h
  · exact h.2
  · exact absurd h.1 (by decide)
  · exact absurd h.1 (by decide)
  · exact absurd h.1 (by decide)
  · exact absurd h.1 (by decide)
  · exact absurd h.1 (by decide)

/-- Auxiliary: a self-reference is never the empty reference. -/
theorem selfRef_ref_ne (options : ParseOptions) (r : String)
    (h : isSelfReference options r = true) : (r == "") = false := by
  by_cases hr : r = ""
  · subst hr; simp [isSelfReference] at h
  · simp [hr]

/-- Auxiliary: `Except` bind on a success value reduces. -/
theorem bind_ok_reduce {α β : Type} (a : α) (k : α → Except GenErr β) :
    (Except.ok a : Except GenErr α) >>= k = k a := rfl

/-- Auxiliary: deduplication of a one-element list is the identity. -/
theorem dedup_single (x : UnionElement) : deduplicateUnionElements [x] = [x] := rfl

/-- Auxiliary: the projection of the IR node constructor. -/
theorem GoSchema_f_mk (x : GoSchemaF GoSchema) : (GoSchema.mk x).f = x := rfl

/-- Auxiliary: for a non-empty standard component reference, the
hoisting step leaves the element schema untouched and changes neither
the accumulated union elements nor the discriminator. -/
theorem unionElemAdjust_std (path2 : List String) (ref : String) (es acc : GoSchema)
    (h1 : (ref == "") = false) (h2 : isStandardComponentReference ref = true) :
    (unionElemAdjust path2 ref es acc).1 = es ∧
    (unionElemAdjust path2 ref es acc).2.f.unionElements = acc.f.unionElements ∧
    (unionElemAdjust path2 ref es acc).2.f.discriminator = acc.f.discriminator := by
  have hne : ref ≠ "" := by
    intro h; subst h; simp at h1
  unfold unionElemAdjust
  by_cases hp : isPrimitiveType es.f.goType = true
  · rw [if_neg (by simp [h1, hp]), if_neg (by simp [hne, hp])]
    exact ⟨rfl, rfl, rfl⟩
  · rw [if_neg (by simp [h1]), if_pos (by simp [hne, hp])]
    rw [if_neg (by simp [h2])]
    exact ⟨rfl, rfl, rfl⟩

/-- Unfolding: `generateUnion` on a one-element list without a
discriminator. -/
theorem generateUnionF_one (fuel : Nat) (e : SchemaProxy) (options : ParseOptions) :
    generateUnionF (fuel + 1) [e] none options =
      (if ¬ isSelfReference options e.ref then
        GenerateGoSchemaF fuel (some e) ((options.withReference e.ref).withPath options.path)
      else
        generateUnionRestF fuel [e] none options none) := rfl

/-- Unfolding: the null-filtering stage of `generateUnion` at successor
fuel. -/
theorem generateUnionRestF_succ (fuel : Nat) (elements : List SchemaProxy)
    (discriminator : Option DiscIn) (options : ParseOptions) (disc0 : Option DiscOut) :
    generateUnionRestF (fuel + 1) elements discriminator options disc0 =
      (let nonNull := filterNonNull elements
       let hasNull := elements.any (fun e => isNullTypeElement e)
       let singleNN : Option SchemaProxy := match nonNull with | [e] => some e | _ => none
       match singleNN, discriminator with
       | some e, none =>
         if ¬ isSelfReference options e.ref then do
           let schema ← GenerateGoSchemaF fuel (some e)
             ((options.withReference e.ref).withPath options.path)
           if hasNull then .ok schema.setNullableTrue else .ok schema
         else
           unionMainF fuel nonNull discriminator options disc0
       | _, _ => unionMainF fuel nonNull discriminator options disc0) := rfl

/-- Unfolding: the main union stage at successor fuel. -/
theorem unionMainF_succ (fuel : Nat) (elems : List SchemaProxy)
    (discriminator : Option DiscIn) (options : ParseOptions) (disc0 : Option DiscOut) :
    unionMainF (fuel + 1) elems discriminator options disc0 = (do
      let out ← unionLoopF fuel elems 0 discriminator options (GoSchema.mk { discriminator := disc0 })
      let out := GoSchema.mk { out.f with unionElements := deduplicateUnionElements out.f.unionElements }
      match out.f.discriminator with
      | some d =>
        let mappedTypes := d.mapping.map Prod.snd
        if out.f.unionElements.any (fun ue => ¬ mappedTypes.contains ue.typeName) then
          .error .discriminatorNotAllMapped
        else .ok out
      | none => .ok out) := rfl

/-- Unfolding: the element loop on the empty list. -/
theorem unionLoopF_nil (fuel : Nat) (i : Nat) (discriminator : Option DiscIn)
    (options : ParseOptions) (acc : GoSchema) :
    unionLoopF fuel [] i discriminator options acc = .ok acc := by
  cases fuel <;> rfl

/-- Unfolding: one iteration of the element loop without a
discriminator. -/
theorem unionLoopF_cons_none (fuel : Nat) (e : SchemaProxy) (rest : List SchemaProxy)
    (i : Nat) (options : ParseOptions) (acc : GoSchema) :
    unionLoopF (fuel + 1) (e :: rest) i none options acc =
      (GenerateGoSchemaF fuel (some e)
          ((options.withReference e.ref).withPath (options.path ++ [toString i]))) >>=
        (fun es0 =>
          unionAppendF fuel rest i none options
            (unionElemAdjust (options.path ++ [toString i]) e.ref es0 acc).2
            (unionElemAdjust (options.path ++ [toString i]) e.ref es0 acc).1) := rfl

/-- Unfolding: the append tail of the element loop at successor fuel. -/
theorem unionAppendF_succ (fuel : Nat) (rest : List SchemaProxy) (i : Nat)
    (discriminator : Option DiscIn) (options : ParseOptions) (acc elementSchema : GoSchema) :
    unionAppendF (fuel + 1) rest i discriminator options acc elementSchema =
      (if elementSchema.f.goType == "struct\x7b\x7d" then
        unionLoopF fuel rest (i + 1) discriminator options acc
      else
        unionLoopF fuel rest (i + 1) discriminator options
          (GoSchema.mk { acc.f with
            unionElements := acc.f.unionElements ++
              [{ typeName := elementSchema.f.goType, schema := elementSchema }] })) := rfl

/-- C2: the union collapse law.  (a) A single-element list without a
discriminator resolves directly to that element's IR with no wrapper;
(b) when exactly one non-null element survives the null filter, the
result is that element's IR with the nullable flag forced true and no
wrapper; (c) when the sole remaining element is a self-reference the
collapse is skipped and a one-element union wrapper is synthesized
instead. -/
theorem C2_union_collapse_law :
    (∀ (fuel : Nat) (e : SchemaProxy) (options : ParseOptions),
      isSelfReference options e.ref = false →
      generateUnionF (fuel + 1) [e] none options =
        GenerateGoSchemaF fuel (some e) ((options.withReference e.ref).withPath options.path)) ∧
    (∀ (fuel : Nat) (elements : List SchemaProxy) (e : SchemaProxy) (options : ParseOptions)
        (s : GoSchema),
      filterNonNull elements = [e] →
      elements.any (fun x => isNullTypeElement x) = true →
      isSelfReference options e.ref = false →
      GenerateGoSchemaF fuel (some e) ((options.withReference e.ref).withPath options.path) =
        .ok s →
      generateUnionRestF (fuel + 1) elements none options none = .ok s.setNullableTrue) ∧
    (∀ (fuel : Nat) (e : SchemaProxy) (options : ParseOptions) (s : GoSchema),
      isSelfReference options e.ref = true →
      isNullTypeElement e = false →
      isStandardComponentReference e.ref = true →
      GenerateGoSchemaF (fuel + 1) (some e)
        ((options.withReference e.ref).withPath (options.path ++ ["0"])) = .ok s →
      (s.f.goType == "struct\x7b\x7d") = false →
      ∃ out, generateUnionF (fuel + 5) [e] none options = .ok out ∧
        out.f.unionElements = [{ typeName := s.f.goType, schema := s }]) := by
  refine ⟨?_, ?_, ?_⟩
  · intro fuel e options hsr
    rw [generateUnionF_one fuel e options, if_pos (by simp [hsr])]
  · intro fuel elements e options s hf hnul hsr hgen
    rw [generateUnionRestF_succ fuel elements none options none]
    simp only [hf, hsr, hnul]
    rw [hgen, bind_ok_reduce]
    simp
  · intro fuel e options s hsr hnn hstd hgen hgt
    have href := selfRef_ref_ne options e.ref hsr
    have hgen' : GenerateGoSchemaF (fuel + 1) (some e)
        ((options.withReference e.ref).withPath (options.path ++ [toString (0 : Nat)])) =
        .ok s := hgen
    obtain ⟨ha1, ha2, ha3⟩ := unionElemAdjust_std (options.path ++ [toString (0 : Nat)])
      e.ref s (GoSchema.mk { discriminator := none }) href hstd
    have hfil : filterNonNull [e] = [e] := by simp [filterNonNull, hnn]
    have e1 : generateUnionF (fuel + 5) [e] none options =
        generateUnionRestF (fuel + 4) [e] none options none := by
      have h := generateUnionF_one (fuel + 4) e options
      rw [if_neg (by simp [hsr])] at h
      exact h
    have e2 : generateUnionRestF (fuel + 4) [e] none options none =
        unionMainF (fuel + 3) [e] none options none := by
      have h := generateUnionRestF_succ (fuel + 3) [e] none options none
      simp only [hfil, hsr] at h
      simpa using h
    have e3 : unionMainF (fuel + 3) [e] none options none = (do
        let out ← unionAppendF (fuel + 1) [] 0 none options
          (unionElemAdjust (options.path ++ [toString (0 : Nat)]) e.ref s
            (GoSchema.mk { discriminator := none })).2 s
        let out := GoSchema.mk
          { out.f with unionElements := deduplicateUnionElements out.f.unionElements }
        match out.f.discriminator with
        | some d =>
          let mappedTypes := d.mapping.map Prod.snd
          if out.f.unionElements.any (fun ue => ¬ mappedTypes.contains ue.typeName) then
            .error .discriminatorNotAllMapped
          else .ok out
        | none => .ok out) := by
      have h := unionMainF_succ (fuel + 2) [e] none options none
      rw [unionLoopF_cons_none (fuel + 1) e [] 0 options
        (GoSchema.mk { discriminator := none })] at h
      rw [hgen', bind_ok_reduce] at h
      rw [ha1] at h
      exact h
    rw [e1, e2, e3]
    rw [unionAppendF_succ fuel [] 0 none options _ s]
    rw [hgt]
    rw [if_neg (by simp)]
    rw [unionLoopF_nil, bind_ok_reduce]
    simp only [GoSchema_f_mk]
    rw [ha3]
    simp only [GoSchema_f_mk]
    refine ⟨_, rfl, ?_⟩
    rw [ha2]
    simp [dedup_single, GoSchema_f_mk]

/-- C2, witness: the collapse law applied to concrete inputs — a sole
`Cat` reference collapses to its alias IR; dropping a null element
forces the nullable flag; a self-referencing `Cat` at path `Cat` yields
a one-element union wrapper. -/
theorem C2_union_collapse_law_witness :
    (generateUnionF 3 [catProxy] none {} =
      GenerateGoSchemaF 2 (some catProxy)
        ((({} : ParseOptions).withReference catProxy.ref).withPath
          ({} : ParseOptions).path)) ∧
    generateUnionRestF 2 [nullProxy, catProxy] none {} none =
      .ok catAliasIR.setNullableTrue ∧
    (∃ out, generateUnionF 5 [catProxy] none { path := ["Cat"] } = .ok out ∧
      out.f.unionElements = [{ typeName := catAliasIR.f.goType, schema := catAliasIR }]) := by
  refine ⟨?_, ?_, ?_⟩
  · exact C2_union_collapse_law.1 2 catProxy {} rfl
  · exact C2_union_collapse_law.2.1 1 [nullProxy, catProxy] catProxy {} catAliasIR
      (by rfl) (by rfl) (by rfl) (by rfl)
  · exact C2_union_collapse_law.2.2 0 catProxy { path := ["Cat"] } catAliasIR
      (by rfl) (by rfl) (by rfl) (by rfl) (by rfl)

/-- Unfolding: the IR builder at successor fuel on a present proxy. -/
theorem GenerateGoSchemaF_succ_some (fuel : Nat) (proxy : SchemaProxy) (options : ParseOptions) :
    GenerateGoSchemaF (fuel + 1) (some proxy) options =
      (if options.reference ≠ "" then
        (refPathToGoType options.reference) >>= (fun refType =>
          .ok (GoSchema.mk {
            goType := refType
            defineViaAlias := true
            description := proxy.schema.description
            openAPISchema := some proxy.schema }))
      else genSchemaNoRefF fuel proxy options) := rfl

/-- C8, counterexample: a schema carrying an `x-go-type` override and an
anyOf of two referenced components resolves to an IR with
`defineViaAlias = true` and a non-empty property list — the override
path enhances the alias IR with the combinator's synthesized property,
refuting the claimed mutual exclusion. -/
theorem C8_counterexample :
    (GenerateGoSchemaF 12 (some (.mk "" c8schema)) c8options).map
      (fun g => (g.f.defineViaAlias, g.f.properties.isEmpty)) = .ok (true, false) := rfl

/-- C8, amended: the alias invariant does hold on the reference branch —
every IR produced for a caller-supplied non-empty reference has
`defineViaAlias = true` and an empty property list. -/
theorem C8_alias_no_properties_amended :
    ∀ (fuel : Nat) (proxy : SchemaProxy) (options : ParseOptions),
      options.reference ≠ "" →
      ∀ g : GoSchema, GenerateGoSchemaF (fuel + 1) (some proxy) options = .ok g →
      g.f.defineViaAlias = true ∧ g.f.properties = [] := by
  intro fuel proxy options href g hg
  rw [GenerateGoSchemaF_succ_some, if_pos href] at hg
  rcases hr : refPathToGoType options.reference with e0 | t <;> rw [hr] at hg
  · have hg2 : (Except.error e0 : Except GenErr GoSchema) = .ok g := hg
    exact Except.noConfusion hg2
  · have hg2 : (Except.ok (GoSchema.mk {
        goType := t, defineViaAlias := true, description := proxy.schema.description,
        openAPISchema := some proxy.schema }) : Except GenErr GoSchema) = .ok g := hg
    simp only [Except.ok.injEq] at hg2
    subst hg2
    exact ⟨rfl, rfl⟩

/-- C8, witness: the amended statement applied to the referenced `Cat`
component. -/
theorem C8_alias_no_properties_amended_witness :
    catAliasIR.f.defineViaAlias = true ∧ catAliasIR.f.properties = [] :=
  C8_alias_no_properties_amended 0 catProxy { reference := "#/components/schemas/Cat" }
    (by simp) catAliasIR (by rfl)

/-- Auxiliary: the hoisting step never changes the accumulator's
discriminator. -/
theorem unionElemAdjust_disc (p : List String) (r : String) (es acc : GoSchema) :
    (unionElemAdjust p r es acc).2.f.discriminator = acc.f.discriminator := by
  unfold unionElemAdjust
  split_ifs <;> (try simp only []) <;> (repeat' split) <;> rfl

/-- Auxiliary: updating the discriminator mapping preserves its
presence. -/
theorem setDiscMapping_isSome (g : GoSchema) (k v : String) :
    (setDiscMapping g k v).f.discriminator.isSome = g.f.discriminator.isSome := by
  unfold setDiscMapping
  rcases hd : g.f.discriminator with _ | d <;> simp [hd, GoSchema_f_mk]

/-- Auxiliary: folding mapping updates preserves discriminator
presence. -/
theorem foldSet_isSome (l : List (String × String)) (t : String) (acc : GoSchema) :
    ((l.foldl (fun a kv => setDiscMapping a kv.1 t) acc).f.discriminator).isSome
      = acc.f.discriminator.isSome := by
  induction l generalizing acc with
  | nil => rfl
  | cons kv tl ih =>
    rw [List.foldl_cons, ih, setDiscMapping_isSome]

/-- Auxiliary: the discriminator step preserves discriminator
presence on success. -/
theorem unionElemDiscF_isSome (fuel : Nat) (e : SchemaProxy) (d : DiscIn)
    (es acc acc2 : GoSchema) (b : Bool)
    (h : unionElemDiscF fuel e d es acc = .ok (acc2, b)) :
    acc2.f.discriminator.isSome = acc.f.discriminator.isSome := by
  unfold unionElemDiscF at h
  simp only [] at h
  split at h
  · simp only [Except.ok.injEq, Prod.mk.injEq] at h
    rw [← h.1]
    exact foldSet_isSome _ _ _
  · split at h
    · split at h
      · split at h
        · exact Except.noConfusion h
        · simp only [Except.ok.injEq, Prod.mk.injEq] at h
          rw [← h.1]
          exact foldSet_isSome _ _ _
      · simp only [Except.ok.injEq, Prod.mk.injEq] at h
        rw [← h.1, setDiscMapping_isSome]
        exact foldSet_isSome _ _ _
    · simp only [Except.ok.injEq, Prod.mk.injEq] at h
      rw [← h.1, setDiscMapping_isSome]
      exact foldSet_isSome _ _ _

/-- Unfolding: one iteration of the element loop at successor fuel. -/
theorem unionLoopF_cons (fuel : Nat) (e : SchemaProxy) (rest : List SchemaProxy)
    (i : Nat) (dIn : Option DiscIn) (options : ParseOptions) (acc : GoSchema) :
    unionLoopF (fuel + 1) (e :: rest) i dIn options acc =
      (GenerateGoSchemaF fuel (some e)
          ((options.withReference e.ref).withPath (options.path ++ [toString i]))) >>=
        (fun es0 =>
          match dIn with
          | some d =>
            match unionElemDiscF fuel e d
                (unionElemAdjust (options.path ++ [toString i]) e.ref es0 acc).1
                (unionElemAdjust (options.path ++ [toString i]) e.ref es0 acc).2 with
            | .error er => .error er
            | .ok (acc2, true) => unionLoopF fuel rest (i + 1) dIn options acc2
            | .ok (acc2, false) => unionAppendF fuel rest i dIn options acc2
                (unionElemAdjust (options.path ++ [toString i]) e.ref es0 acc).1
          | none => unionAppendF fuel rest i dIn options
              (unionElemAdjust (options.path ++ [toString i]) e.ref es0 acc).2
              (unionElemAdjust (options.path ++ [toString i]) e.ref es0 acc).1) := rfl

/-- Auxiliary: the element loop and its append tail preserve
discriminator presence on success, at every fuel. -/
theorem loopAppend_disc_pres (fuel : Nat) :
    (∀ (elems : List SchemaProxy) (i : Nat) (dIn : Option DiscIn) (opts : ParseOptions)
        (acc out : GoSchema), unionLoopF fuel elems i dIn opts acc = .ok out →
      out.f.discriminator.isSome = acc.f.discriminator.isSome) ∧
    (∀ (rest : List SchemaProxy) (i : Nat) (dIn : Option DiscIn) (opts : ParseOptions)
        (acc es out : GoSchema), unionAppendF fuel rest i dIn opts acc es = .ok out →
      out.f.discriminator.isSome = acc.f.discriminator.isSome) := by
  induction fuel with
  | zero =>
    constructor
    · intro elems i dIn opts acc out h
      cases elems with
      | nil =>
        have h2 : (Except.ok acc : Except GenErr GoSchema) = .ok out := h
        simp only [Except.ok.injEq] at h2
        rw [← h2]
      | cons e rest =>
        have h2 : (Except.error GenErr.outOfFuel : Except GenErr GoSchema) = .ok out := h
        exact Except.noConfusion h2
    · intro rest i dIn opts acc es out h
      have h2 : (Except.error GenErr.outOfFuel : Except GenErr GoSchema) = .ok out := h
      exact Except.noConfusion h2
  | succ n ih =>
    constructor
    · intro elems i dIn opts acc out h
      cases elems with
      | nil =>
        have h2 : (Except.ok acc : Except GenErr GoSchema) = .ok out := h
        simp only [Except.ok.injEq] at h2
        rw [← h2]
      | cons e rest =>
        rw [unionLoopF_cons] at h
        rcases hg : GenerateGoSchemaF n (some e)
            ((opts.withReference e.ref).withPath (opts.path ++ [toString i])) with e0 | es0
        · rw [hg] at h
          have h2 : (Except.error e0 : Except GenErr GoSchema) = .ok out := h
          exact Except.noConfusion h2
        · rw [hg, bind_ok_reduce] at h
          rcases dIn with _ | d
          · simp only [] at h
            have := ih.2 rest i none opts
              (unionElemAdjust (opts.path ++ [toString i]) e.ref es0 acc).2
              (unionElemAdjust (opts.path ++ [toString i]) e.ref es0 acc).1 out h
            rw [this, unionElemAdjust_disc]
          · simp only [] at h
            rcases hdf : unionElemDiscF n e d
                (unionElemAdjust (opts.path ++ [toString i]) e.ref es0 acc).1
                (unionElemAdjust (opts.path ++ [toString i]) e.ref es0 acc).2 with er | p
            · rw [hdf] at h
              exact Except.noConfusion h
            · rw [hdf] at h
              rcases p with ⟨acc2, b⟩
              have hpres := unionElemDiscF_isSome n e d
                (unionElemAdjust (opts.path ++ [toString i]) e.ref es0 acc).1
                (unionElemAdjust (opts.path ++ [toString i]) e.ref es0 acc).2 acc2 b hdf
              cases b with
              | true =>
                have := ih.1 rest (i + 1) (some d) opts acc2 out h
                rw [this, hpres, unionElemAdjust_disc]
              | false =>
                have := ih.2 rest i (some d) opts acc2
                  (unionElemAdjust (opts.path ++ [toString i]) e.ref es0 acc).1 out h
                rw [this, hpres, unionElemAdjust_disc]
    · intro rest i dIn opts acc es out h
      rw [unionAppendF_succ] at h
      split_ifs at h
      · exact ih.1 rest (i + 1) dIn opts acc out h
      · have := ih.1 rest (i + 1) dIn opts
          (GoSchema.mk { acc.f with
            unionElements := acc.f.unionElements ++
              [{ typeName := es.f.goType, schema := es }] }) out h
        rw [this, GoSchema_f_mk]

/-- Unfolding: with a discriminator present the entry stage always
reaches the null-filtering stage, seeding an empty mapping. -/
theorem generateUnionF_some (fuel : Nat) (elems : List SchemaProxy) (d : DiscIn)
    (opts : ParseOptions) :
    generateUnionF (fuel + 1) elems (some d) opts =
      generateUnionRestF fuel elems (some d) opts
        (some { property := d.propertyName, mapping := [] }) := by
  rcases elems with _ | ⟨e1, _ | ⟨e2, rest⟩⟩ <;> rfl

/-- Unfolding: with a discriminator present the null-filtering stage
always reaches the main union stage on the filtered elements. -/
theorem generateUnionRestF_some (fuel : Nat) (elems : List SchemaProxy) (d : DiscIn)
    (opts : ParseOptions) (disc0 : Option DiscOut) :
    generateUnionRestF (fuel + 1) elems (some d) opts disc0 =
      unionMainF fuel (filterNonNull elems) (some d) opts disc0 := by
  rw [generateUnionRestF_succ]
  rcases hf : filterNonNull elems with _ | ⟨x, _ | ⟨y, tl⟩⟩ <;> simp [hf]

/-- C1: for every union with a discriminator, generation succeeds only
if every union element's type name appears among the values of the final
mapping; an uncovered element type yields the discriminator-not-all-mapped
error (concretely: an explicit `cat -> Cat` entry overwritten by `Evil`'s
extracted `cat` value), and several discriminator values mapping to the
same element type are accepted. -/
theorem C1_discriminator_coverage :
    (∀ (fuel : Nat) (elems : List SchemaProxy) (d : DiscIn) (opts : ParseOptions)
        (out : GoSchema),
      generateUnionF fuel elems (some d) opts = .ok out →
      ∃ dOut, out.f.discriminator = some dOut ∧
        ∀ ue ∈ out.f.unionElements,
          ((dOut.mapping.map Prod.snd).contains
            (ue : UnionElementF GoSchema).typeName) = true) ∧
    generateUnionF 12 [catProxy, evilProxy] (some petDisc) {} =
      .error .discriminatorNotAllMapped ∧
    (generateUnionF 12 [textProxy] (some textDisc) {}).map (fun g => g.f.discriminator) =
      .ok (some { property := "kind",
                  mapping := [("text", "TextValue"), ("filterable-text", "TextValue")] }) := by
  refine ⟨?_, rfl, rfl⟩
  intro fuel elems d opts out h
  cases fuel with
  | zero =>
    have h2 : (Except.error GenErr.outOfFuel : Except GenErr GoSchema) = .ok out := h
    exact Except.noConfusion h2
  | succ n =>
    rw [generateUnionF_some] at h
    cases n with
    | zero =>
      have h2 : (Except.error GenErr.outOfFuel : Except GenErr GoSchema) = .ok out := h
      exact Except.noConfusion h2
    | succ m =>
      rw [generateUnionRestF_some] at h
      cases m with
      | zero =>
        have h2 : (Except.error GenErr.outOfFuel : Except GenErr GoSchema) = .ok out := h
        exact Except.noConfusion h2
      | succ k =>
        rw [unionMainF_succ] at h
        rcases hl : unionLoopF k (filterNonNull elems) 0 (some d) opts
            (GoSchema.mk { discriminator := some (DiscOut.mk d.propertyName []) }) with e0 | out0
        · rw [hl] at h
          have h2 : (Except.error e0 : Except GenErr GoSchema) = .ok out := h
          exact Except.noConfusion h2
        · rw [hl, bind_ok_reduce] at h
          have hd : out0.f.discriminator.isSome = true := by
            rw [(loopAppend_disc_pres k).1 _ _ _ _ _ _ hl]
            rfl
          rcases ho : out0.f.discriminator with _ | dOut
          · rw [ho] at hd
            simp at hd
          · simp only [GoSchema_f_mk] at h
            rw [ho] at h
            simp only [] at h
            cases hany : (deduplicateUnionElements out0.f.unionElements).any
                (fun ue => ¬ (dOut.mapping.map Prod.snd).contains
                  (ue : UnionElementF GoSchema).typeName) with
            | true =>
              rw [hany] at h
              simp at h
            | false =>
              rw [hany] at h
              simp only [Bool.false_eq_true, if_false, Except.ok.injEq] at h
              subst h
              refine ⟨dOut, by simp [GoSchema_f_mk, ho], ?_⟩
              intro ue hue
              simp only [GoSchema_f_mk] at hue
              have := List.any_eq_false.mp hany ue hue
              simpa using this

/-- C1, witness: the coverage statement applied to the concrete
`TextValue` union, whose generation succeeds with a discriminator. -/
theorem C1_discriminator_coverage_witness :
    (generateUnionF 12 [textProxy] (some textDisc) {}).map
      (fun g => g.f.discriminator.isSome) = .ok true := by
  obtain ⟨dOut, h1, h2⟩ :=
    C1_discriminator_coverage.1 12 [textProxy] textDisc {} tvUnionIR (by rfl)
  rw [show generateUnionF 12 [textProxy] (some textDisc) {} = .ok tvUnionIR from rfl]
  simp [Except.map, h1]

/-- Auxiliary: folding over no duplicates keeps the element. -/
theorem keepBest_nil (r : UnionElement) : keepBest r [] = r := rfl

/-- Auxiliary: one step of the stricter-survivor fold. -/
theorem keepBest_cons (r x : UnionElement) (l : List UnionElement) :
    keepBest r (x :: l) = keepBest (keepStricter r x) l := rfl

/-- Auxiliary: the stricter survivor keeps the shared type name. -/
theorem keepStricter_name (r e : UnionElement)
    (h : (r : UnionElementF GoSchema).typeName = (e : UnionElementF GoSchema).typeName) :
    (keepStricter r e : UnionElementF GoSchema).typeName =
      (r : UnionElementF GoSchema).typeName := by
  unfold keepStricter
  split_ifs <;> simp [h]

/-- Auxiliary: in-place replacement preserves the name sequence. -/
theorem dedupReplace_names (e : UnionElement) (res : List UnionElement) :
    (dedupStep.dedupReplace res e).map (fun r => (r : UnionElementF GoSchema).typeName) =
      res.map (fun r => (r : UnionElementF GoSchema).typeName) := by
  induction res with
  | nil => rfl
  | cons r rs ih =>
    unfold dedupStep.dedupReplace
    by_cases hm : ((r : UnionElementF GoSchema).typeName ==
        (e : UnionElementF GoSchema).typeName) = true
    · rw [if_pos hm]
      have hname := beq_iff_eq.mp hm
      simp only [List.map_cons]
      congr 1
      split_ifs <;> simp [hname]
    · rw [if_neg hm]
      simp only [List.map_cons, ih]

/-- Auxiliary: string equality tests are symmetric. -/
theorem strBeq_comm (a b : String) : (a == b) = (b == a) := by
  by_cases h : a = b
  · simp [h]
  · have h1 : (a == b) = false := beq_eq_false_iff_ne.mpr h
    have h2 : (b == a) = false := beq_eq_false_iff_ne.mpr (Ne.symm h)
    rw [h1, h2]

/-- Auxiliary: membership ignores whether a name was appended or
prepended. -/
theorem contains_append_one (l : List String) (n x : String) :
    ((l ++ [n]).contains x) = ((n :: l).contains x) := by
  induction l with
  | nil => rfl
  | cons a as ih =>
    rw [List.cons_append, List.contains_cons, ih, List.contains_cons,
      List.contains_cons]
    rw [List.contains_cons]
    rw [Bool.or_left_comm]

/-- Auxiliary: membership in the name sequence equals the existence
test used by `dedupStep`. -/
theorem names_contains_iff (res : List UnionElement) (n : String) :
    ((res.map (fun r => (r : UnionElementF GoSchema).typeName)).contains n) =
      res.any (fun r => ((r : UnionElementF GoSchema).typeName == n)) := by
  induction res with
  | nil => rfl
  | cons r rs ih =>
    simp only [List.map_cons, List.contains_cons, List.any_cons, ih]
    rw [strBeq_comm]

/-- Auxiliary: the claim-side walk depends on the seen set only
through membership. -/
theorem specGoDedup_congr (seen1 seen2 : List String)
    (h : ∀ x, seen1.contains x = seen2.contains x) (l : List UnionElement) :
    specGoDedup seen1 l = specGoDedup seen2 l := by
  induction l generalizing seen1 seen2 with
  | nil => rfl
  | cons e tl ih =>
    unfold specGoDedup
    rw [h]
    split_ifs with hc
    · exact ih seen1 seen2 h
    · rw [ih ((e : UnionElementF GoSchema).typeName :: seen1)
        ((e : UnionElementF GoSchema).typeName :: seen2)
        (fun x => by rw [List.contains_cons, List.contains_cons, h x])]

/-- Auxiliary: replacing the resident duplicate and then folding the
remaining duplicates equals folding all duplicates from the start. -/
theorem dedupReplace_mapKeep (e : UnionElement) (tl res : List UnionElement)
    (hnd : (res.map (fun r => (r : UnionElementF GoSchema).typeName)).Nodup) :
    (dedupStep.dedupReplace res e).map
      (fun r => keepBest r (tl.filter
        (fun x => (x : UnionElementF GoSchema).typeName ==
          (r : UnionElementF GoSchema).typeName))) =
    res.map (fun r => keepBest r ((e :: tl).filter
      (fun x => (x : UnionElementF GoSchema).typeName ==
        (r : UnionElementF GoSchema).typeName))) := by
  induction res with
  | nil => rfl
  | cons r rs ih =>
    simp only [List.map_cons, List.nodup_cons] at hnd
    unfold dedupStep.dedupReplace
    by_cases hm : ((r : UnionElementF GoSchema).typeName ==
        (e : UnionElementF GoSchema).typeName) = true
    · rw [if_pos hm]
      have hname := beq_iff_eq.mp hm
      simp only [List.map_cons]
      congr 1
      · rw [show (if isStricterElement e r = true then e else r) = keepStricter r e from rfl]
        have hsn : (keepStricter r e : UnionElementF GoSchema).typeName =
            (r : UnionElementF GoSchema).typeName := keepStricter_name r e hname
        rw [hsn, List.filter_cons, if_pos (by simp [hname])]
        rw [keepBest_cons]
      · apply List.map_congr_left
        intro r2 hr2
        have hne : (e : UnionElementF GoSchema).typeName ≠
            (r2 : UnionElementF GoSchema).typeName := by
          intro hx
          exact hnd.1 (by
            rw [hname, hx]
            exact List.mem_map_of_mem _ hr2)
        rw [List.filter_cons, if_neg (by simp [hne])]
    · rw [if_neg hm]
      simp only [List.map_cons]
      congr 1
      · have hne : (e : UnionElementF GoSchema).typeName ≠
            (r : UnionElementF GoSchema).typeName := by
          intro hx
          exact hm (by simp [hx])
        rw [List.filter_cons, if_neg (by simp [hne])]
      · exact ih hnd.2

/-- Auxiliary: the loop invariant of `deduplicateUnionElements` — the
fold equals the per-name stricter-survivor map followed by the
claim-side walk of the remaining input. -/
theorem foldl_dedup_spec (tl : List UnionElement) :
    ∀ res : List UnionElement,
      (res.map (fun r => (r : UnionElementF GoSchema).typeName)).Nodup →
      List.foldl dedupStep res tl =
        res.map (fun r => keepBest r (tl.filter
          (fun x => (x : UnionElementF GoSchema).typeName ==
            (r : UnionElementF GoSchema).typeName))) ++
        specGoDedup (res.map (fun r => (r : UnionElementF GoSchema).typeName)) tl := by
  induction tl with
  | nil =>
    intro res _
    simp [specGoDedup, keepBest]
  | cons e tl ih =>
    intro res hnd
    rw [List.foldl_cons]
    by_cases hany : res.any (fun r => ((r : UnionElementF GoSchema).typeName ==
        (e : UnionElementF GoSchema).typeName)) = true
    · have hstep : dedupStep res e = dedupStep.dedupReplace res e := by
        unfold dedupStep
        rw [if_pos hany]
      rw [hstep]
      have hnames := dedupReplace_names e res
      have hnd2 : ((dedupStep.dedupReplace res e).map
          (fun r => (r : UnionElementF GoSchema).typeName)).Nodup := by
        rw [hnames]; exact hnd
      rw [ih _ hnd2, hnames, dedupReplace_mapKeep e tl res hnd]
      congr 1
      have hc : ((res.map (fun r => (r : UnionElementF GoSchema).typeName)).contains
          (e : UnionElementF GoSchema).typeName) = true := by
        rw [names_contains_iff]; exact hany
      conv_rhs => rw [specGoDedup]
      rw [if_pos hc]
    · have hstep : dedupStep res e = res ++ [e] := by
        unfold dedupStep
        rw [if_neg hany]
      rw [hstep]
      have hnotmem : (e : UnionElementF GoSchema).typeName ∉
          res.map (fun r => (r : UnionElementF GoSchema).typeName) := by
        intro hmem
        apply hany
        rw [← names_contains_iff]
        exact List.elem_iff.mpr hmem
      have hnd2 : (((res ++ [e]).map
          (fun r => (r : UnionElementF GoSchema).typeName)).Nodup) := by
        rw [List.map_append]
        simp [List.nodup_append, hnd, hnotmem]
      rw [ih _ hnd2, List.map_append, List.map_append]
      simp only [List.map_cons, List.map_nil]
      have hmapfresh : res.map (fun r => keepBest r (tl.filter
          (fun x => (x : UnionElementF GoSchema).typeName ==
            (r : UnionElementF GoSchema).typeName))) =
          res.map (fun r => keepBest r ((e :: tl).filter
            (fun x => (x : UnionElementF GoSchema).typeName ==
              (r : UnionElementF GoSchema).typeName))) := by
        apply List.map_congr_left
        intro r2 hr2
        have hne : (e : UnionElementF GoSchema).typeName ≠
            (r2 : UnionElementF GoSchema).typeName := by
          intro hx
          exact hnotmem (by rw [hx]; exact List.mem_map_of_mem _ hr2)
        rw [List.filter_cons, if_neg (by simp [hne])]
      rw [hmapfresh]
      have hcongr := specGoDedup_congr
        ((res.map (fun r => (r : UnionElementF GoSchema).typeName)) ++
          [(e : UnionElementF GoSchema).typeName])
        ((e : UnionElementF GoSchema).typeName ::
          res.map (fun r => (r : UnionElementF GoSchema).typeName))
        (fun x => contains_append_one _ _ _) tl
      rw [hcongr]
      conv_rhs => rw [specGoDedup]
      rw [if_neg (by
        rw [names_contains_iff]
        simp [hany])]
      simp [List.append_assoc]

/-- C9: union element deduplication collapses equal type names to one
element, keeps the duplicate with the higher constraint count (ties keep
the first occurrence), and preserves first-occurrence order — the
source fold equals the claim-side description verbatim. -/
theorem C9_dedup_refinement (l : List UnionElement) :
    deduplicateUnionElements l = specDedup l := by
  unfold deduplicateUnionElements specDedup
  rw [foldl_dedup_spec l [] (by simp)]
  rfl

/-- Auxiliary: filtering is idempotent. -/
theorem filter_idem {α : Type} (p : α → Bool) (l : List α) :
    (l.filter p).filter p = l.filter p := by
  induction l with
  | nil => rfl
  | cons a as ih =>
    by_cases h : p a = true <;> simp [List.filter_cons, h, ih]

/-- Auxiliary: a sweep that deletes nothing keeps the collection and
every member's reference is contained in the set. -/
theorem sweep_zero (k : CompKind) (refs : List String) (l : List (String × CompBody))
    (h : (sweepKind k refs l).2 = 0) :
    (sweepKind k refs l).1 = l ∧
    ∀ nb ∈ l, (refs.contains (synthRef k nb.1)) = true := by
  unfold sweepKind at h ⊢
  simp only [] at h ⊢
  have hle := List.length_filter_le (fun nb => refs.contains (synthRef k nb.1)) l
  have hlen : (l.filter (fun nb => refs.contains (synthRef k nb.1))).length = l.length := by
    omega
  have hall := List.filter_length_eq_length.mp hlen
  exact ⟨List.filter_eq_self.mpr hall, hall⟩

/-- Unfolding: the deletion count is the sum over the seven kinds. -/
theorem removeOrphaned_counts (d : PruneDoc) (refs : List String) :
    (removeOrphanedComponents d refs).2 =
      (sweepKind .schemas refs d.schemas).2 + (sweepKind .parameters refs d.parameters).2 +
      (sweepKind .requestBodies refs d.requestBodies).2 +
      (sweepKind .responses refs d.responses).2 + (sweepKind .headers refs d.headers).2 +
      (sweepKind .links refs d.links).2 + (sweepKind .callbacks refs d.callbacks).2 := rfl

/-- Unfolding: the swept document, kind by kind. -/
theorem removeOrphaned_doc (d : PruneDoc) (refs : List String) :
    (removeOrphanedComponents d refs).1 =
      { d with
        schemas := (sweepKind .schemas refs d.schemas).1
        parameters := (sweepKind .parameters refs d.parameters).1
        requestBodies := (sweepKind .requestBodies refs d.requestBodies).1
        responses := (sweepKind .responses refs d.responses).1
        headers := (sweepKind .headers refs d.headers).1
        links := (sweepKind .links refs d.links).1
        callbacks := (sweepKind .callbacks refs d.callbacks).1 } := rfl

/-- Auxiliary: a pass that deletes nothing returns the document
unchanged. -/
theorem removeOrphaned_zero_doc (d : PruneDoc) (refs : List String)
    (h : (removeOrphanedComponents d refs).2 = 0) :
    (removeOrphanedComponents d refs).1 = d := by
  rw [removeOrphaned_counts] at h
  rw [removeOrphaned_doc,
    (sweep_zero .schemas refs d.schemas (by omega)).1,
    (sweep_zero .parameters refs d.parameters (by omega)).1,
    (sweep_zero .requestBodies refs d.requestBodies (by omega)).1,
    (sweep_zero .responses refs d.responses (by omega)).1,
    (sweep_zero .headers refs d.headers (by omega)).1,
    (sweep_zero .links refs d.links (by omega)).1,
    (sweep_zero .callbacks refs d.callbacks (by omega)).1]

/-- Auxiliary: on a stable document every component's synthesized
reference is contained in the computed reference set. -/
theorem stable_all_contained (t : PruneDoc) (hst : stablePruneDoc t) :
    ∀ (k : CompKind) (nb : String × CompBody), nb ∈ t.comps k →
      ((findOperationRefs t).contains (synthRef k nb.1)) = true := by
  unfold stablePruneDoc at hst
  rw [removeOrphaned_counts] at hst
  intro k nb hmem
  cases k with
  | schemas =>
    exact (sweep_zero .schemas (findOperationRefs t) t.schemas (by omega)).2 nb hmem
  | parameters =>
    exact (sweep_zero .parameters (findOperationRefs t) t.parameters (by omega)).2 nb hmem
  | requestBodies =>
    exact (sweep_zero .requestBodies (findOperationRefs t) t.requestBodies (by omega)).2 nb hmem
  | responses =>
    exact (sweep_zero .responses (findOperationRefs t) t.responses (by omega)).2 nb hmem
  | headers =>
    exact (sweep_zero .headers (findOperationRefs t) t.headers (by omega)).2 nb hmem
  | links =>
    exact (sweep_zero .links (findOperationRefs t) t.links (by omega)).2 nb hmem
  | callbacks =>
    exact (sweep_zero .callbacks (findOperationRefs t) t.callbacks (by omega)).2 nb hmem

/-- Auxiliary: cleanup commutes with the deletion sweep, which only
inspects component names. -/
theorem cleanupComps_filter (allowed : List String) (k : CompKind) (refs : List String)
    (l : List (String × CompBody)) :
    cleanupComps allowed (l.filter (fun nb => refs.contains (synthRef k nb.1))) =
      (cleanupComps allowed l).filter (fun nb => refs.contains (synthRef k nb.1)) := by
  induction l with
  | nil => rfl
  | cons nb tl ih =>
    simp only [cleanupComps] at ih ⊢
    rw [List.filter_cons]
    by_cases h : (refs.contains (synthRef k nb.1)) = true
    · rw [if_pos h, List.map_cons, List.map_cons, List.filter_cons,
        if_pos (by simpa using h), ih]
    · rw [if_neg h, List.map_cons, List.filter_cons, if_neg (by simpa using h), ih]

/-- Auxiliary: one body's cleanup is idempotent. -/
theorem cleanupBody_idem (allowed : List String) (b : CompBody) :
    cleanupBody allowed (cleanupBody allowed b) = cleanupBody allowed b := by
  unfold cleanupBody
  simp [filter_idem]

/-- Auxiliary: a collection's cleanup is idempotent. -/
theorem cleanupComps_idem (allowed : List String) (l : List (String × CompBody)) :
    cleanupComps allowed (cleanupComps allowed l) = cleanupComps allowed l := by
  unfold cleanupComps
  rw [List.map_map]
  apply List.map_congr_left
  intro nb _
  simp [Function.comp, cleanupBody_idem]

/-- Auxiliary: the first-pass cleanup is idempotent. -/
theorem cleanupDoc_idem (allowed : List String) (d : PruneDoc) :
    cleanupDoc allowed (cleanupDoc allowed d) = cleanupDoc allowed d := by
  unfold cleanupDoc
  simp [filter_idem, cleanupComps_idem, cleanupComps, cleanupBody_idem]

/-- Auxiliary: on a cleaned document the deletion sweep preserves
cleanness. -/
theorem cleanup_removal (allowed : List String) (d : PruneDoc) (refs : List String)
    (hc : cleanupDoc allowed d = d) :
    cleanupDoc allowed (removeOrphanedComponents d refs).1 =
      (removeOrphanedComponents d refs).1 := by
  have hoe : d.opExtRefs.filter (fun kv => allowed.contains kv.1) = d.opExtRefs :=
    congrArg PruneDoc.opExtRefs hc
  have hsc : cleanupComps allowed d.schemas = d.schemas := congrArg PruneDoc.schemas hc
  have hpa : cleanupComps allowed d.parameters = d.parameters :=
    congrArg PruneDoc.parameters hc
  have hrb : cleanupComps allowed d.requestBodies = d.requestBodies :=
    congrArg PruneDoc.requestBodies hc
  have hrs : cleanupComps allowed d.responses = d.responses := congrArg PruneDoc.responses hc
  have hhd : cleanupComps allowed d.headers = d.headers := congrArg PruneDoc.headers hc
  have hlk : cleanupComps allowed d.links = d.links := congrArg PruneDoc.links hc
  have hcb : ([] : List (String × CompBody)) = d.callbacks := congrArg PruneDoc.callbacks hc
  rw [removeOrphaned_doc]
  unfold cleanupDoc
  unfold sweepKind
  simp only []
  rw [hoe,
    cleanupComps_filter allowed .schemas refs d.schemas, hsc,
    cleanupComps_filter allowed .parameters refs d.parameters, hpa,
    cleanupComps_filter allowed .requestBodies refs d.requestBodies, hrb,
    cleanupComps_filter allowed .responses refs d.responses, hrs,
    cleanupComps_filter allowed .headers refs d.headers, hhd,
    cleanupComps_filter allowed .links refs d.links, hlk,
    ← hcb]
  rfl

/-- Unfolding: the loop at exhausted fuel. -/
theorem pruneLoopF_zero (allowed : List String) (b : Bool) (d : PruneDoc) (p : Nat) :
    pruneLoopF allowed 0 b d p = .error .iterationLimitExceeded := rfl

/-- Unfolding: the first (cleanup) iteration. -/
theorem pruneLoopF_true_eq (allowed : List String) (fuel : Nat) (d : PruneDoc) (p : Nat) :
    pruneLoopF allowed (fuel + 1) true d p =
      pruneLoopF allowed fuel false (cleanupDoc allowed d) (p + 1) := rfl

/-- Unfolding: a deletion iteration. -/
theorem pruneLoopF_false_eq (allowed : List String) (fuel : Nat) (d : PruneDoc) (p : Nat) :
    pruneLoopF allowed (fuel + 1) false d p =
      (let refs := findOperationRefs d
       let dr := removeOrphanedComponents d refs
       if dr.2 < 1 then .ok ⟨dr.1, 0, p + 1⟩
       else
         match pruneLoopF allowed fuel false dr.1 (p + 1) with
         | .ok out => .ok ⟨out.doc, dr.2 + out.removedTotal, out.passes⟩
         | .error e => .error e) := rfl

/-- Auxiliary: a successful loop run ends on a stable document, and
preserves cleanness of the input. -/
theorem pruneLoopF_false_ok (allowed : List String) :
    ∀ (fuel : Nat) (d : PruneDoc) (p : Nat) (out : PruneOutcome),
      pruneLoopF allowed fuel false d p = .ok out →
      stablePruneDoc out.doc ∧
      (cleanupDoc allowed d = d → cleanupDoc allowed out.doc = out.doc) := by
  intro fuel
  induction fuel with
  | zero =>
    intro d p out h
    exact Except.noConfusion (h : (Except.error PruneErr.iterationLimitExceeded :
      Except PruneErr PruneOutcome) = .ok out)
  | succ n ih =>
    intro d p out h
    rw [pruneLoopF_false_eq] at h
    simp only [] at h
    split at h
    · rename_i hlt
      simp only [Except.ok.injEq] at h
      subst h
      have hz : (removeOrphanedComponents d (findOperationRefs d)).2 = 0 :=
        Nat.lt_one_iff.mp hlt
      have hd1 := removeOrphaned_zero_doc d (findOperationRefs d) hz
      constructor
      · unfold stablePruneDoc
        simp only []
        rw [hd1]
        exact hz
      · intro hc
        simp only []
        rw [hd1]
        exact hc
    · rename_i hge
      split at h
      · rename_i out2 hrec
        simp only [Except.ok.injEq] at h
        subst h
        obtain ⟨h1, h2⟩ := ih _ _ _ hrec
        refine ⟨h1, ?_⟩
        intro hc
        exact h2 (cleanup_removal allowed d _ hc)
      · exact Except.noConfusion h

/-- Auxiliary: the loop performs at most one pass per fuel unit. -/
theorem pruneLoopF_passes (allowed : List String) :
    ∀ (fuel : Nat) (b : Bool) (d : PruneDoc) (p : Nat) (out : PruneOutcome),
      pruneLoopF allowed fuel b d p = .ok out → out.passes ≤ p + fuel := by
  intro fuel
  induction fuel with
  | zero =>
    intro b d p out h
    exact Except.noConfusion (h : (Except.error PruneErr.iterationLimitExceeded :
      Except PruneErr PruneOutcome) = .ok out)
  | succ n ih =>
    intro b d p out h
    cases b with
    | true =>
      rw [pruneLoopF_true_eq] at h
      have := ih false (cleanupDoc allowed d) (p + 1) out h
      omega
    | false =>
      rw [pruneLoopF_false_eq] at h
      simp only [] at h
      split at h
      · simp only [Except.ok.injEq] at h
        subst h
        simp only []
        omega
      · split at h
        · rename_i out2 hrec
          simp only [Except.ok.injEq] at h
          subst h
          have := ih false _ (p + 1) out2 hrec
          simp only []
          omega
        · exact Except.noConfusion h

/-- C5: reachability soundness of pruning — in the returned document,
every surviving component of every kind has its synthesized reference in
the reference set computed from the retained operations and the retained
components' own bodies. -/
theorem C5_reachability :
    ∀ (allowed : List String) (d : PruneDoc) (out : PruneOutcome),
      pruneSchemaF allowed d = .ok out →
      ∀ (k : CompKind) (nb : String × CompBody), nb ∈ out.doc.comps k →
        ((findOperationRefs out.doc).contains (synthRef k nb.1)) = true := by
  intro allowed d out h
  have h2 : pruneLoopF allowed 999 false (cleanupDoc allowed d) 1 = .ok out := h
  have hst := (pruneLoopF_false_ok allowed 999 _ _ _ h2).1
  exact stable_all_contained out.doc hst

/-- C6: pruning is idempotent — rerunning the pruner on its own output
succeeds after one cleanup pass and one deletion pass and deletes zero
components, returning the same document. -/
theorem C6_prune_idempotent :
    ∀ (allowed : List String) (d : PruneDoc) (out : PruneOutcome),
      pruneSchemaF allowed d = .ok out →
      pruneSchemaF allowed out.doc = .ok ⟨out.doc, 0, 2⟩ := by
  intro allowed d out h
  have h2 : pruneLoopF allowed 999 false (cleanupDoc allowed d) 1 = .ok out := h
  obtain ⟨hst, hclimp⟩ := pruneLoopF_false_ok allowed 999 _ _ _ h2
  have hcl : cleanupDoc allowed out.doc = out.doc :=
    hclimp (cleanupDoc_idem allowed d)
  show pruneLoopF allowed 999 false (cleanupDoc allowed out.doc) 1 = .ok ⟨out.doc, 0, 2⟩
  rw [hcl]
  rw [show (999 : Nat) = 998 + 1 from rfl, pruneLoopF_false_eq]
  simp only []
  unfold stablePruneDoc at hst
  rw [if_pos (by omega)]
  rw [removeOrphaned_zero_doc _ _ hst]

/-- C7: the pruning loop is capped — on every document it either
returns a stable pruned document within 1000 passes or fails with the
iteration-limit error; the loop always terminates. -/
theorem C7_prune_cap :
    ∀ (allowed : List String) (d : PruneDoc),
      (∃ out, pruneSchemaF allowed d = .ok out ∧ stablePruneDoc out.doc ∧
        out.passes ≤ maxPruneIterations) ∨
      pruneSchemaF allowed d = .error .iterationLimitExceeded := by
  intro allowed d
  rcases hr : pruneSchemaF allowed d with e | out
  · right
    cases e
    rfl
  · left
    refine ⟨out, rfl, ?_, ?_⟩
    · have h2 : pruneLoopF allowed 999 false (cleanupDoc allowed d) 1 = .ok out := hr
      exact (pruneLoopF_false_ok allowed 999 _ _ _ h2).1
    · have := pruneLoopF_passes allowed 1000 true d 0 out hr
      simpa [maxPruneIterations] using this

/-- C5, witness: the reachability statement applied to a document with
one operation-referenced schema, which the pruner keeps. -/
theorem C5_reachability_witness :
    ((findOperationRefs pruneCatDoc).contains (synthRef .schemas "Cat")) = true :=
  C5_reachability [] pruneCatDoc ⟨pruneCatDoc, 0, 2⟩ (by rfl) .schemas ("Cat", {})
    (by simp [pruneCatDoc, PruneDoc.comps])

/-- C6, witness: the idempotence statement applied to the outcome of
pruning the one-schema document. -/
theorem C6_prune_idempotent_witness :
    pruneSchemaF [] pruneCatDoc = .ok ⟨pruneCatDoc, 0, 2⟩ :=
  C6_prune_idempotent [] pruneCatDoc ⟨pruneCatDoc, 0, 2⟩ (by rfl)

end OapiCodegen
